import Mathlib

/-!
# The table widget of `v2/tablewidget.go`

A shallow embedding of the grid-editing widget: the table contents, the
cursor and the operations that move the cursor or change the grid. The menu
tables of `command.go`, the line push and pop of `popline.go` and the
indentation table of `spaces.go` follow.

Modelling conventions.

* A Go `[]string` is a `Row`: `none` is the nil slice, `some l` a non-nil
  slice holding the cells `l`. `len` of a nil slice is 0.
* `*tw.contents` is a `List Row`; the widget is the only holder of the
  grid here, so the pointer is modelled by the value it points to.
* Go's `int` is modelled by `Int`. The statements below concern cursors
  between `-1` and a slice length, and a slice length is at most `2^63 - 1`,
  so no increment or decrement of a 64-bit `int` wraps around there.
* An operation that can stop with a run-time panic (a slice or index
  expression out of range) returns `Option`, with `none` for the panic.
* A Go `string` is a `String`, so it holds valid UTF-8; `len(s)` is
  `s.utf8ByteSize`. `strings.TrimSpace` and `unicode.IsSpace` follow the Go
  standard library.
* The rows of a grid do not share backing arrays: writing a cell of one row
  changes no other row.
* A Go map is the list of its entries, with pairwise different keys; the
  order in which `range` visits a map is not specified, so a loop over a map
  takes the visiting order as an argument.
* A file is the string it holds, and every read and write succeeds.
* `Draw` is modelled by the list of calls it makes on the canvas, in order.
  `TableColumnWidths` is not part of these sources; its result is a
  parameter `columnWidths` of `Draw` and `NewTableWidget`.
-/

namespace Orbiton

/-- Go `[]string`; `none` is the nil slice. -/
abbrev Row := Option (List String)

/-- Go `len(row)`. -/
def rowLen : Row → Nat
  | none => 0
  | some l => l.length

/-- The cells of Go `make([]string, n)`: `n` empty strings. -/
def blankCells (n : Int) : List String :=
  List.replicate n.toNat ""

/-- Go `make([]string, n)`: a non-nil slice of `n` empty strings. -/
def makeRow (n : Int) : Row :=
  some (blankCells n)

/-- Go `copy(dst, src)`: the first `min (len dst) (len src)` cells of `dst`
are overwritten by those of `src`. -/
def copyRow (dst src : List String) : List String :=
  src.take dst.length ++ dst.drop src.length

/-- The first loop of `Expand`: scans the rows, `n` being `len(*contents)`,
and returns the final value of `maxWidth`. -/
def expandMaxWidth (n : Nat) : List Row → Nat → Nat
  | [], maxWidth => maxWidth
  | r :: rs, maxWidth =>
      expandMaxWidth n rs (if rowLen r > maxWidth then n else maxWidth)

/-- The body of the second loop of `Expand` for one row. -/
def expandRow (maxWidth : Nat) : Row → Row
  | none => makeRow maxWidth
  | some backup =>
      if backup.length < maxWidth then some (copyRow (blankCells maxWidth) backup)
      else some backup

/-- `Expand(contents)` of `v2/tablewidget.go`. -/
def Expand (contents : List Row) : List Row :=
  let maxWidth := expandMaxWidth contents.length contents 0
  contents.map (expandRow maxWidth)

/-- The largest cell count among the rows of a grid. -/
def maxCells (contents : List Row) : Nat :=
  contents.foldr (fun r m => max (rowLen r) m) 0

/-- Every row of the grid has `w` cells. -/
def Rectangular (contents : List Row) (w : Nat) : Prop :=
  ∀ r ∈ contents, rowLen r = w

instance (contents : List Row) (w : Nat) : Decidable (Rectangular contents w) :=
  inferInstanceAs (Decidable (∀ r ∈ contents, rowLen r = w))

/-- Colour attribute of the terminal library (`vt100.AttributeColor`). -/
abbrev AttributeColor := List Nat

/-- `TableWidget` of `v2/tablewidget.go`, with `contents` holding the grid
the pointer refers to. -/
structure TableWidget where
  title : String
  contents : List Row
  bgColor : AttributeColor
  highlightColor : AttributeColor
  headerColor : AttributeColor
  textColor : AttributeColor
  titleColor : AttributeColor
  cursorColor : AttributeColor
  commentColor : AttributeColor
  cx : Int
  marginLeft : Int
  marginTop : Int
  oldy : Int
  cy : Int
  oldx : Int
  h : Int
  w : Int
  deriving DecidableEq

/-- `ContentsWH`: width (the length of row 0) and height of the contents. -/
def ContentsWH (tw : TableWidget) : Int × Int :=
  match tw.contents with
  | [] => (0, 0)
  | r :: _ => ((rowLen r : Int), (tw.contents.length : Int))

/-- `Up`: move the highlight up, with wrap-around. -/
def Up (tw : TableWidget) : TableWidget :=
  let cw := (ContentsWH tw).1
  let ch := (ContentsWH tw).2
  let tw := { tw with oldy := tw.cy }
  let tw := { tw with cy := tw.cy - 1 }
  let tw := if tw.cy < 0 then { tw with cy := ch - 1 } else tw
  if tw.cx ≥ cw then { tw with cx := cw - 1 } else tw

/-- `Down`: move the highlight down, with wrap-around. -/
def Down (tw : TableWidget) : TableWidget :=
  let cw := (ContentsWH tw).1
  let ch := (ContentsWH tw).2
  let tw := { tw with oldy := tw.cy }
  let tw := { tw with cy := tw.cy + 1 }
  let tw := if tw.cy ≥ ch then { tw with cy := 0 } else tw
  if tw.cx ≥ cw then { tw with cx := cw - 1 } else tw

/-- `Left`: move the highlight left, with wrap-around. -/
def Left (tw : TableWidget) : TableWidget :=
  let cw := (ContentsWH tw).1
  let tw := { tw with oldx := tw.cx }
  let tw := { tw with cx := tw.cx - 1 }
  if tw.cx < 0 then { tw with cx := cw - 1 } else tw

/-- `Right`: move the highlight right, with wrap-around. -/
def Right (tw : TableWidget) : TableWidget :=
  let cw := (ContentsWH tw).1
  let tw := { tw with oldx := tw.cx }
  let tw := { tw with cx := tw.cx + 1 }
  if tw.cx ≥ cw then { tw with cx := 0 } else tw

/-- `NextOrInsert`: move to the next cell, or append a new row. -/
def NextOrInsert (tw : TableWidget) : TableWidget :=
  let cw := (ContentsWH tw).1
  let ch := (ContentsWH tw).2
  let tw := { tw with oldx := tw.cx }
  let tw := { tw with cx := tw.cx + 1 }
  if tw.cx ≥ cw then
    let tw := { tw with cx := 0 }
    let tw := { tw with cy := tw.cy + 1 }
    if tw.cy ≥ ch then
      let newRow := makeRow cw
      let tw := { tw with contents := tw.contents ++ [newRow] }
      let tw := { tw with h := tw.h + 1 }
      { tw with cy := ch }
    else tw
  else tw

/-- `InsertRowBelow`: insert a row below the current one. The slice
expressions `(*tw.contents)[:tw.cy]` and `(*tw.contents)[tw.cy:]` panic
unless `0 ≤ tw.cy ≤ len(*tw.contents)`; the result is then `none`. -/
def InsertRowBelow (tw : TableWidget) : Option TableWidget :=
  let cw := (ContentsWH tw).1
  let tw := { tw with cx := 0 }
  let tw := { tw with cy := tw.cy + 1 }
  let newRow := makeRow cw
  if 0 ≤ tw.cy ∧ tw.cy ≤ (tw.contents.length : Int) then
    let rows := tw.contents.take tw.cy.toNat ++ ([newRow] ++ tw.contents.drop tw.cy.toNat)
    let tw := { tw with contents := rows }
    some { tw with h := tw.h + 1 }
  else none

/-- `DeleteCurrentRow`: delete the current row. -/
def DeleteCurrentRow (tw : TableWidget) : TableWidget :=
  if tw.cy ≥ 0 ∧ tw.cy < (tw.contents.length : Int) then
    let rows := tw.contents.take tw.cy.toNat ++ tw.contents.drop (tw.cy + 1).toNat
    let tw := { tw with contents := rows }
    let tw := { tw with cy := tw.cy - 1 }
    { tw with h := tw.h - 1 }
  else tw

/-- `SelectIndex(x, y)`: the returned flag and the widget after the call. -/
def SelectIndex (tw : TableWidget) (x y : Int) : Bool × TableWidget :=
  let cw := (ContentsWH tw).1
  let ch := (ContentsWH tw).2
  if x ≥ cw ∨ y ≥ ch then (false, tw)
  else
    let tw := { tw with oldx := tw.cx }
    let tw := { tw with oldy := tw.cy }
    let tw := { tw with cx := x }
    let tw := { tw with cy := y }
    (true, tw)

/-- `SelectStart`: select the start of the row. -/
def SelectStart (tw : TableWidget) : Bool × TableWidget :=
  SelectIndex tw 0 tw.cy

/-- `SelectEnd`: select the end of the row. -/
def SelectEnd (tw : TableWidget) : Bool × TableWidget :=
  let cw := (ContentsWH tw).1
  SelectIndex tw (cw - 1) tw.cy

/-- The cursor lies within `[0, width) × [0, height)` of the contents. -/
def CursorValid (tw : TableWidget) : Prop :=
  0 ≤ tw.cx ∧ tw.cx < (ContentsWH tw).1 ∧ 0 ≤ tw.cy ∧ tw.cy < (ContentsWH tw).2

instance (tw : TableWidget) : Decidable (CursorValid tw) :=
  inferInstanceAs (Decidable (_ ∧ _ ∧ _ ∧ _))

/-- A widget over the given grid with the cursor at `(cx, cy)`, used for
concrete examples; margins as set by `NewTableWidget`, no title, empty
colour attributes. -/
def mkWidget (contents : List Row) (cx cy : Int) : TableWidget :=
  { title := "", contents := contents, bgColor := [], highlightColor := [],
    headerColor := [], textColor := [], titleColor := [], cursorColor := [],
    commentColor := [], cx := cx, marginLeft := 10, marginTop := 10,
    oldy := cy, cy := cy, oldx := cx, h := contents.length, w := 0 }

/-- The width of a grid: the length of its row 0, and 0 without rows. -/
def gridWidth : List Row → Nat
  | [] => 0
  | r :: _ => rowLen r

/-- The grid is rectangular with at least one row and one column, and the
cursor lies within `[0, width) × [0, height)`. -/
def WidgetInv (tw : TableWidget) : Prop :=
  1 ≤ tw.contents.length ∧ 1 ≤ gridWidth tw.contents ∧
  Rectangular tw.contents (gridWidth tw.contents) ∧
  0 ≤ tw.cx ∧ tw.cx < (gridWidth tw.contents : Int) ∧
  0 ≤ tw.cy ∧ tw.cy < (tw.contents.length : Int)

instance (tw : TableWidget) : Decidable (WidgetInv tw) :=
  inferInstanceAs (Decidable (_ ∧ _ ∧ _ ∧ _ ∧ _ ∧ _ ∧ _))

/-- The navigation and growth operations of the widget. -/
inductive NavOp where
  | up
  | down
  | left
  | right
  | nextOrInsert
  | insertRowBelow
  deriving DecidableEq

/-- One operation applied to the widget; `none` when it panics. -/
def NavOp.apply : NavOp → TableWidget → Option TableWidget
  | .up, tw => some (Up tw)
  | .down, tw => some (Down tw)
  | .left, tw => some (Left tw)
  | .right, tw => some (Right tw)
  | .nextOrInsert, tw => some (NextOrInsert tw)
  | .insertRowBelow, tw => InsertRowBelow tw

/-- A finite sequence of operations applied from left to right. -/
def runOps : List NavOp → TableWidget → Option TableWidget
  | [], tw => some tw
  | op :: ops, tw =>
      match op.apply tw with
      | some tw1 => runOps ops tw1
      | none => none

/-- The counter of `Down` and `Right`: one step forward, the bound `n`
wrapping to 0. -/
def wrapInc (n v : Int) : Int :=
  if v + 1 ≥ n then 0 else v + 1

/-- The counter of `Up` and `Left`: one step back, a negative value
wrapping to `n - 1`. -/
def wrapDec (n v : Int) : Int :=
  if v - 1 < 0 then n - 1 else v - 1

/-- The cells of a row, the nil slice having none. -/
def rowCells : Row → List String
  | none => []
  | some l => l

/-- Go `unicode.IsSpace`: the white-space characters of Unicode. -/
def isSpace (c : Char) : Bool :=
  let n := c.toNat
  (9 ≤ n && n ≤ 13) || n == 0x20 || n == 0x85 || n == 0xA0 || n == 0x1680 ||
    (0x2000 ≤ n && n ≤ 0x200A) || n == 0x2028 || n == 0x2029 || n == 0x202F ||
    n == 0x205F || n == 0x3000

/-- Go `strings.TrimSpace`: the string without its leading and trailing
white space. -/
def TrimSpace (s : String) : String :=
  String.mk ((s.data.dropWhile isSpace).rdropWhile isSpace)

/-- Go `l[i]` for an `int` index; `none` is the index-out-of-range panic. -/
def indexInt {α : Type} (l : List α) (i : Int) : Option α :=
  if 0 ≤ i then l[i.toNat]? else none

/-- Go `l[i] = v` for an `int` index; `none` is the index-out-of-range
panic. -/
def setInt {α : Type} (l : List α) (i : Int) (v : α) : Option (List α) :=
  if 0 ≤ i ∧ i < (l.length : Int) then some (l.set i.toNat v) else none

/-- The loop `for i := 0; i < len(l); i++ { l[i] = f(l[i]) }`. -/
def updateEach {α : Type} (f : α → α) (l : List α) : List α :=
  (List.range l.length).foldl
    (fun acc i => match acc[i]? with
      | some a => acc.set i (f a)
      | none => acc) l

/-- The loop of `CurrentRowIsEmpty` over the cells of the row. -/
def rowIsBlank : List String → Bool
  | [] => true
  | cell :: rest => if TrimSpace cell ≠ "" then false else rowIsBlank rest

/-- `CurrentRowIsEmpty`: the returned flag and the widget after the call;
`none` when `(*tw.contents)[tw.cy]` is out of range. -/
def CurrentRowIsEmpty (tw : TableWidget) : Option (Bool × TableWidget) :=
  match indexInt tw.contents tw.cy with
  | some row => some (rowIsBlank (rowCells row), tw)
  | none => none

/-- The inner loop of `TrimAll` on one row; a nil row has no cell. -/
def trimRow : Row → Row
  | none => none
  | some cells => some (updateEach TrimSpace cells)

/-- `TrimAll`: trim the leading and trailing spaces of every field. -/
def TrimAll (tw : TableWidget) : TableWidget :=
  { tw with contents := updateEach trimRow tw.contents }

/-- `Get`: the contents of the current field; `none` when
`(*tw.contents)[tw.cy][tw.cx]` is out of range. -/
def Get (tw : TableWidget) : Option String :=
  match indexInt tw.contents tw.cy with
  | some row => indexInt (rowCells row) tw.cx
  | none => none

/-- `Set`: change the contents of the current field; `none` when
`(*tw.contents)[tw.cy][tw.cx]` is out of range. -/
def Set (tw : TableWidget) (field : String) : Option TableWidget :=
  match indexInt tw.contents tw.cy with
  | some row =>
      match setInt (rowCells row) tw.cx field with
      | some cells => some { tw with contents := tw.contents.set tw.cy.toNat (some cells) }
      | none => none
  | none => none

/-- `Add`: append a string to the current field, `row[cx] += s`. -/
def Add (tw : TableWidget) (s : String) : Option TableWidget :=
  match Get tw with
  | some old => Set tw (old ++ s)
  | none => none

/-- The cell `(y, x)` of a grid, when there is one. -/
def cellAt (g : List Row) (y x : Nat) : Option String :=
  match g[y]? with
  | some row => (rowCells row)[x]?
  | none => none

/-- Go `uint(v)` for a 64-bit `int`: the value modulo `2^64`. -/
def toUint (v : Int) : Nat :=
  (v % 18446744073709551616).toNat

/-- The canvas of the terminal library as `Draw` uses it: its width `W()`
and height `H()` in cells. -/
structure Canvas where
  w : Nat
  h : Nat
  deriving DecidableEq

/-- A call the widget makes on the canvas: `PlotColor(x, y, fg, r)` or
`Write(x, y, fg, bg, s)`. -/
inductive CanvasOp where
  | plotColor (x y : Nat) (fg : AttributeColor) (r : Char)
  | write (x y : Nat) (fg bg : AttributeColor) (s : String)
  deriving DecidableEq

/-- The pairs of `for x, r := range s` from byte offset `off` on: each
character with the byte offset at which it starts. -/
def rangeStringFrom : Nat → List Char → List (Nat × Char)
  | _, [] => []
  | off, ch :: rest => (off, ch) :: rangeStringFrom (off + ch.utf8Size) rest

/-- The pairs of `for x, r := range s`. -/
def rangeString (s : String) : List (Nat × Char) :=
  rangeStringFrom 0 s.data

/-- Go `strings.Repeat(" ", int(c.W()))`, for a canvas width below `2^63`. -/
def blankLine (c : Canvas) : String :=
  String.mk (List.replicate c.w ' ')

/-- The inner loop of `Draw` over the cells of row `y`, from column `x` on
with the horizontal position `xpos`; `columnWidths` is the result of
`TableColumnWidths`, and `none` is the panic of `columnWidths[x]` out of
range. `len(field)` is the length of the field in bytes. -/
def drawCells (tw : TableWidget) (columnWidths : List Int) (y : Nat) :
    List String → Nat → Int → Option (List CanvasOp)
  | [], _, _ => some []
  | field :: rest, x, xpos =>
      let line := toUint (tw.marginTop + (y : Int) + 3)
      let atCursor : Bool := decide ((y : Int) = tw.cy ∧ (x : Int) = tw.cx)
      let caret := if atCursor then
        [CanvasOp.write (toUint (xpos + (field.utf8ByteSize : Int))) line
          tw.cursorColor tw.bgColor "_"]
        else []
      let color := if atCursor then tw.highlightColor
        else if y = 0 then tw.headerColor else tw.textColor
      let text := CanvasOp.write (toUint xpos) line color tw.bgColor field
      match columnWidths[x]? with
      | none => none
      | some width =>
          match drawCells tw columnWidths y rest (x + 1) (xpos + width + 2) with
          | none => none
          | some ops => some (caret ++ text :: ops)

/-- The loop of `Draw` over the rows, from row `y` on: each row is blanked
and its cells are written. -/
def drawRows (tw : TableWidget) (columnWidths : List Int) (c : Canvas) :
    List Row → Nat → Option (List CanvasOp)
  | [], _ => some []
  | row :: rest, y =>
      let blank := CanvasOp.write 0 (toUint (tw.marginTop + (y : Int) + 3))
        tw.textColor tw.bgColor (blankLine c)
      match drawCells tw columnWidths y (rowCells row) 0 tw.marginLeft with
      | none => none
      | some cellOps =>
          match drawRows tw columnWidths c rest (y + 1) with
          | none => none
          | some ops => some (blank :: cellOps ++ ops)

/-- The last loop of `Draw`: the rows `ch .. ch + 3` after the table are
blanked, each when `uint(y) < c.H()`. -/
def drawTrailing (tw : TableWidget) (c : Canvas) (ch : Int) : List CanvasOp :=
  ([ch, ch + 1, ch + 2, ch + 3]).filterMap (fun y =>
    if toUint y < c.h then
      some (CanvasOp.write 0 (toUint (tw.marginTop + y + 3)) tw.textColor tw.bgColor
        (blankLine c))
    else none)

/-- The title plotted at the top margin. -/
def drawTitle (tw : TableWidget) : List CanvasOp :=
  (rangeString tw.title).map (fun p =>
    CanvasOp.plotColor (toUint (tw.marginLeft + (p.1 : Int))) (toUint tw.marginTop)
      tw.titleColor p.2)

/-- The size caption `fmt.Sprintf("%dx%d", cw, ch)` plotted below the
title. -/
def drawSize (tw : TableWidget) : List CanvasOp :=
  (rangeString (toString (ContentsWH tw).1 ++ "x" ++ toString (ContentsWH tw).2)).map (fun p =>
    CanvasOp.plotColor (toUint (tw.marginLeft + (p.1 : Int))) (toUint (tw.marginTop + 1))
      tw.commentColor p.2)

/-- `Draw`: the calls made on the canvas, in order; `none` when
`columnWidths[x]` panics. -/
def Draw (tw : TableWidget) (columnWidths : List Int) (c : Canvas) :
    Option (List CanvasOp) :=
  match drawRows tw columnWidths c tw.contents 0 with
  | none => none
  | some rowOps =>
      some (drawTitle tw ++ drawSize tw ++ rowOps ++ drawTrailing tw c (ContentsWH tw).2)

/-- The widget with the cursor outside the grid, at `(-1, -1)`: no cell is
the cursor cell. -/
def noCursor (tw : TableWidget) : TableWidget :=
  { tw with cx := -1, cy := -1 }

/-- `NewTableWidget`, `columnWidths` being the result of
`TableColumnWidths([]string{}, *contents)`. -/
def NewTableWidget (columnWidths : List Int) (title : String) (contents : List Row)
    (titleColor headerColor textColor highlightColor cursorColor commentColor
      bgColor : AttributeColor)
    (canvasWidth _canvasHeight initialY : Int) : TableWidget :=
  let widgetWidth := columnWidths.foldl (fun acc w => acc + (w + 1)) 0
  let widgetWidth := if widgetWidth > canvasWidth then canvasWidth else widgetWidth
  let widgetHeight : Int := contents.length
  { title := title, w := widgetWidth, h := widgetHeight, cx := 0, oldx := 0,
    cy := initialY, oldy := initialY, marginLeft := 10, marginTop := 10,
    contents := contents, titleColor := titleColor, headerColor := headerColor,
    textColor := textColor, highlightColor := highlightColor, cursorColor := cursorColor,
    commentColor := commentColor, bgColor := bgColor }

/-- Where the text of column `m` starts: the left margin plus, for each
preceding column, its width and a gutter of 2. -/
def cellXpos (tw : TableWidget) (columnWidths : List Int) (m : Nat) : Int :=
  tw.marginLeft + ((columnWidths.take m).map (fun w => w + 2)).sum

/-- The widget with seven different colours, used for concrete examples. -/
def withColors (tw : TableWidget) : TableWidget :=
  { tw with titleColor := [1], headerColor := [2], textColor := [3], highlightColor := [4],
            cursorColor := [5], commentColor := [6], bgColor := [7] }

/-- Modelled from the spec: the editor modes. `Mode` and its constants are
declared outside these sources; the spec calls them a closed enumeration of
modes, so the constants named in `spaces.go` are taken as pairwise different
values. -/
inductive Mode where
  | modeBlank | modeAda | modeAssembly | modeBat | modeBattlestar | modeC | modeCMake
  | modeCS | modeConfig | modeCpp | modeCrystal | modeGit | modeGo | modeHIDL | modeHTML
  | modeHaskell | modeJSON | modeJava | modeJavaScript | modeKotlin | modeLisp | modeLua
  | modeMakefile | modeMarkdown | modeNim | modeNroff | modeOCaml | modeOak
  | modeObjectPascal | modeOdin | modePolicyLanguage | modePython | modeRust | modeSQL
  | modeScala | modeShell | modeStandardML | modeText | modeTypeScript | modeVim | modeXML
  | modeZig
  deriving DecidableEq

/-- `TabsSpaces` of `spaces.go`. -/
structure TabsSpaces where
  perTab : Int
  spaces : Bool
  deriving DecidableEq

/-- `defaultTabsSpaces = TabsSpaces{4, false}`. -/
def defaultTabsSpaces : TabsSpaces :=
  { perTab := 4, spaces := false }

/-- The entries of the map `languageIndentation`, in the order of the
source. -/
def languageIndentation : List (TabsSpaces × List Mode) :=
  [ ({ perTab := 4, spaces := false },
      [.modeC, .modeGo, .modeHIDL, .modeLisp, .modeMakefile, .modeNroff, .modeOCaml,
        .modeRust, .modeStandardML]),
    ({ perTab := 2, spaces := true },
      [.modeAssembly, .modeConfig, .modeHTML, .modeHaskell, .modeJSON, .modeLua,
        .modeObjectPascal, .modeOdin, .modePolicyLanguage, .modeShell, .modeVim, .modeVim,
        .modeXML]),
    ({ perTab := 3, spaces := true }, [.modeAda]),
    ({ perTab := 4, spaces := true },
      [.modeBat, .modeBattlestar, .modeCMake, .modeCS, .modeCpp, .modeCrystal, .modeGit,
        .modeJSON, .modeJava, .modeJavaScript, .modeKotlin, .modeLua, .modeMakefile,
        .modeMarkdown, .modeNim, .modeOak, .modePython, .modeSQL, .modeScala, .modeText,
        .modeTypeScript, .modeZig]) ]

/-- The inner loop `for _, v := range vs`: whether some `v == mode`. -/
def modeListed (mode : Mode) : List Mode → Bool
  | [] => false
  | v :: vs => if v = mode then true else modeListed mode vs

/-- `TabsSpacesFromMode`, the entries of the map being visited in the order
`visit` (the order of `range` over a Go map is not specified). -/
def TabsSpacesFromModeIn (mode : Mode) : List (TabsSpaces × List Mode) → TabsSpaces
  | [] => defaultTabsSpaces
  | (k, vs) :: rest => if modeListed mode vs then k else TabsSpacesFromModeIn mode rest

/-- `Spaces`, the entries of the map being visited in the order `visit`. -/
def SpacesIn (mode : Mode) : List (TabsSpaces × List Mode) → Bool
  | [] => defaultTabsSpaces.spaces
  | (k, vs) :: rest => if modeListed mode vs then k.spaces else SpacesIn mode rest

/-- Go `strings.Split(s, "\n")` on the characters of `s`: the pieces
between the newlines, one piece more than there are newlines. -/
def splitLines : List Char → List (List Char)
  | [] => [[]]
  | ch :: rest =>
      if ch = '\n' then [] :: splitLines rest
      else
        match splitLines rest with
        | [] => [[ch]]
        | piece :: pieces => (ch :: piece) :: pieces

/-- Go `strings.Join(lines, "\n")` on characters. -/
def joinLines : List (List Char) → List Char
  | [] => []
  | [piece] => piece
  | piece :: next :: pieces => piece ++ '\n' :: joinLines (next :: pieces)

/-- Go `strings.Split(s, "\n")`. -/
def Split (s : String) : List String :=
  (splitLines s.data).map String.mk

/-- Go `strings.Join(lines, "\n")`. -/
def Join (lines : List String) : String :=
  String.mk (joinLines (lines.map String.data))

/-- The state of the loop of `PopLineFrom`: `foundLine`, `found` and
`modifiedLines`. -/
structure PopState where
  foundLine : String
  found : Bool
  modifiedLines : List String
  deriving DecidableEq

/-- One turn of the loop `for i, line := range lines` of `PopLineFrom`. -/
def popStep (st : PopState) (entry : Nat × String) : PopState :=
  if entry.1 = 0 then { st with foundLine := entry.2, found := true }
  else { st with modifiedLines := st.modifiedLines ++ [entry.2] }

/-- `PopLineFrom`, the file being the string `content` and every read and
write succeeding: the returned line and error (`none` for `nil`), and the
content of the file after the call. -/
def PopLineFrom (filename content : String) : (String × Option String) × String :=
  let lines := Split content
  if lines.length = 0 ∨
      (lines.length = 1 ∧ (TrimSpace (lines.getD 0 "")).utf8ByteSize = 0) then
    (("", some "clipboard file is empty"), content)
  else
    let st := lines.enum.foldl popStep { foundLine := "", found := false, modifiedLines := [] }
    if !st.found then
      (("", some ("could not pop line from " ++ filename)), content)
    else
      ((st.foundLine, none), Join st.modifiedLines)

/-- `PushLineTo`, the file being the string `content` and every read and
write succeeding: the returned error (`none` for `nil`) and the content of
the file after the call. -/
def PushLineTo (content line : String) : Option String × String :=
  let lines := Split content
  let modifiedLines := [line] ++ lines
  (none, Join modifiedLines)

/-- Go `m[k] = v` on a `map[int]V`, the map being the list of its entries
with pairwise different keys: the value of an existing key is replaced, a new
key is added. -/
def mapSet {V : Type} (m : List (Int × V)) (k : Int) (v : V) : List (Int × V) :=
  if m.any (fun e => e.1 == k) then m.map (fun e => if e.1 = k then (k, v) else e)
  else m ++ [(k, v)]

/-- The colours of the text themes (`vt100.Yellow`, `vt100.LightGreen`,
`vt100.LightBlue`). -/
inductive ThemeColor where
  | yellow
  | lightGreen
  | lightBlue
  deriving DecidableEq

/-- The function literals stored in `actionFunctions`, each named after
what its body does. -/
inductive Action where
  | saveAndQuit
  | toggleWrapWhenTyping
  | wordWrap
  | sortStrings
  | insertFile
  | toggleSyntaxHighlight
  | unlock
  | redBlackTheme
  | defaultTheme
  | colorTheme (color : ThemeColor)
  deriving DecidableEq

/-- The two maps of `CommandMenu`. -/
structure MenuTables where
  actionTitles : List (Int × String)
  actionFunctions : List (Int × Action)
  deriving DecidableEq

/-- The pair of assignments `actionTitles[len(actionTitles)] = title` and
`actionFunctions[len(actionFunctions)] = f`. -/
def addMenuItem (t : MenuTables) (title : String) (f : Action) : MenuTables :=
  let t := { t with actionTitles := mapSet t.actionTitles (t.actionTitles.length : Int) title }
  { t with actionFunctions := mapSet t.actionFunctions (t.actionFunctions.length : Int) f }

/-- The text of the menu item `colorText[i] + " theme"`. -/
def colorText : List String :=
  ["Amber", "Green", "Blue"]

/-- The tables `CommandMenu` builds before it shows the menu. `noColor` is
`os.Getenv("NO_COLOR") != ""`; `lightTheme`, `syntaxHighlight`,
`wrapWhenTyping` and `editorWrapWidth` are the fields of the editor. -/
def menuTables (noColor forced lightTheme syntaxHighlight wrapWhenTyping : Bool)
    (editorWrapWidth : Int) : MenuTables :=
  let wrapWidth := if editorWrapWidth = 0 then 80 else editorWrapWidth
  let wrapWhenTypingToggleText :=
    if wrapWhenTyping then "Disable word wrap when typing" else "Enable word wrap when typing"
  let t : MenuTables :=
    { actionTitles :=
        [(0, "Save and quit"), (1, wrapWhenTypingToggleText),
          (2, "Word wrap at " ++ toString wrapWidth),
          (3, "Sort the list of strings on the current line"),
          (4, "Insert \"" ++ "include.txt" ++ "\" at the current line")],
      actionFunctions :=
        [(0, .saveAndQuit), (1, .toggleWrapWhenTyping), (2, .wordWrap), (3, .sortStrings),
          (4, .insertFile)] }
  let t :=
    if !noColor then
      let syntaxToggleText :=
        if !syntaxHighlight then "Enable syntax highlighting" else "Disable syntax highlighting"
      addMenuItem t syntaxToggleText .toggleSyntaxHighlight
    else t
  let t := if forced then addMenuItem t "Unlock if locked" .unlock else t
  if !lightTheme && !noColor then
    let t := addMenuItem t "Red/black theme" .redBlackTheme
    let t := addMenuItem t "Default theme" .defaultTheme
    ([ThemeColor.yellow, ThemeColor.lightGreen, ThemeColor.lightBlue].enum).foldl
      (fun t entry => addMenuItem t (colorText.getD entry.1 "" ++ " theme")
        (.colorTheme entry.2)) t
  else t

/-- The title that belongs to a function of the menu. -/
def titleOfAction (syntaxHighlight wrapWhenTyping : Bool) (editorWrapWidth : Int) :
    Action → String
  | .saveAndQuit => "Save and quit"
  | .toggleWrapWhenTyping =>
      if wrapWhenTyping then "Disable word wrap when typing" else "Enable word wrap when typing"
  | .wordWrap => "Word wrap at " ++ toString (if editorWrapWidth = 0 then 80 else editorWrapWidth)
  | .sortStrings => "Sort the list of strings on the current line"
  | .insertFile => "Insert \"" ++ "include.txt" ++ "\" at the current line"
  | .toggleSyntaxHighlight =>
      if !syntaxHighlight then "Enable syntax highlighting" else "Disable syntax highlighting"
  | .unlock => "Unlock if locked"
  | .redBlackTheme => "Red/black theme"
  | .defaultTheme => "Default theme"
  | .colorTheme .yellow => "Amber theme"
  | .colorTheme .lightGreen => "Green theme"
  | .colorTheme .lightBlue => "Blue theme"

/-- Go `fmt.Sprintf("[%d] %s", i, description)`. -/
def menuChoiceText (i : Int) (description : String) : String :=
  "[" ++ toString i ++ "] " ++ description

/-- The loop `for i, description := range actionTitles` filling
`menuChoices := make([]string, n)`, the entries of the map being visited in
the order `visit`; `none` is the panic of `menuChoices[i]` out of range. -/
def buildMenuChoices (n : Nat) (visit : List (Int × String)) : Option (List String) :=
  visit.foldl
    (fun acc entry =>
      match acc with
      | some choices => setInt choices entry.1 (menuChoiceText entry.1 entry.2)
      | none => none)
    (some (blankCells n))

/-- The function `actionFunctions[selected]` that `CommandMenu` calls;
`none` is the nil function of a missing key, whose call panics. -/
def selectedAction (t : MenuTables) (selected : Int) : Option Action :=
  t.actionFunctions.lookup selected

/-- The keys of `actionTitles` are `0 .. n-1`, and `actionFunctions` lists,
key by key, the function that belongs to each title. -/
def MenuOK (syntaxHighlight wrapWhenTyping : Bool) (editorWrapWidth : Int)
    (t : MenuTables) : Prop :=
  t.actionTitles.map Prod.fst = (List.range t.actionTitles.length).map Int.ofNat ∧
  t.actionFunctions.map
    (fun e => (e.1, titleOfAction syntaxHighlight wrapWhenTyping editorWrapWidth e.2))
      = t.actionTitles

/-- The white-space characters of Unicode, as the Go documentation of
`unicode.IsSpace` lists them: the code points with the White_Space
property. -/
def WhiteSpace (ch : Char) : Prop :=
  ch.toNat ∈ [0x09, 0x0A, 0x0B, 0x0C, 0x0D, 0x20, 0x85, 0xA0, 0x1680, 0x2000, 0x2001,
    0x2002, 0x2003, 0x2004, 0x2005, 0x2006, 0x2007, 0x2008, 0x2009, 0x200A, 0x2028, 0x2029,
    0x202F, 0x205F, 0x3000]

instance (ch : Char) : Decidable (WhiteSpace ch) :=
  inferInstanceAs (Decidable (ch.toNat ∈ _))

/-- The string `t` is `s` without its surrounding white space: `s` is `t`
between two runs of white space, and `t` neither starts nor ends with a
white-space character. -/
def IsTrimOf (s t : String) : Prop :=
  ∃ pre post : List Char, s.data = pre ++ t.data ++ post ∧
    (∀ ch ∈ pre, WhiteSpace ch) ∧ (∀ ch ∈ post, WhiteSpace ch) ∧
    (∀ ch, t.data.head? = some ch → ¬ WhiteSpace ch) ∧
    (∀ ch, t.data.getLast? = some ch → ¬ WhiteSpace ch)

/-! ## Expand -/

/-- C1, evaluated on the code: on the grid `[["a","b","c"],["d"]]` the
first loop of `Expand` stores the row count 2 in `maxWidth`, not the longest
row length 3, so the first row keeps 3 cells, the second is padded to 2
cells, and the result is not rectangular. -/
theorem Expand_not_rectangular :
    Expand [some ["a", "b", "c"], some ["d"]] = [some ["a", "b", "c"], some ["d", ""]] ∧
    maxCells [some ["a", "b", "c"], some ["d"]] = 3 ∧
    ¬ ∃ w, Rectangular (Expand [some ["a", "b", "c"], some ["d"]]) w := by
  refine ⟨by decide, by decide, ?_⟩
  rintro ⟨w, hw⟩
  have h0 := hw (some ["a", "b", "c"]) (by decide)
  have h1 := hw (some ["d", ""]) (by decide)
  simp [rowLen] at h0 h1
  omega

/-! ## Basic facts about the grid -/

theorem ContentsWH_eq (tw : TableWidget) :
    ContentsWH tw = ((gridWidth tw.contents : Int), (tw.contents.length : Int)) := by
  unfold ContentsWH gridWidth
  cases tw.contents <;> simp

theorem rowLen_makeRow (n : Nat) : rowLen (makeRow (n : Int)) = n := by
  simp [rowLen, makeRow, blankCells]

theorem gridWidth_append (c d : List Row) (hc : 1 ≤ c.length) :
    gridWidth (c ++ d) = gridWidth c := by
  cases c with
  | nil => simp at hc
  | cons r rs => simp [gridWidth]

theorem gridWidth_take (c : List Row) (n : Nat) (hn : 1 ≤ n) :
    gridWidth (c.take n) = gridWidth c := by
  cases c with
  | nil => simp
  | cons r rs =>
    cases n with
    | zero => omega
    | succ m => simp [gridWidth]

theorem gridWidth_of_Rectangular (c : List Row) (w : Nat)
    (hc : Rectangular c w) (hlen : 1 ≤ c.length) : gridWidth c = w := by
  cases c with
  | nil => simp at hlen
  | cons r rs => exact hc r (List.mem_cons_self r rs)

theorem makeRow_eq (n : Nat) : makeRow (n : Int) = some (List.replicate n "") := by
  simp [makeRow, blankCells]

theorem Rectangular_append (c d : List Row) (w : Nat)
    (hc : Rectangular c w) (hd : Rectangular d w) : Rectangular (c ++ d) w := by
  intro r hr
  rcases List.mem_append.mp hr with h | h
  · exact hc r h
  · exact hd r h

theorem Rectangular_take (c : List Row) (w n : Nat) (hc : Rectangular c w) :
    Rectangular (c.take n) w :=
  fun r hr => hc r (List.mem_of_mem_take hr)

theorem Rectangular_drop (c : List Row) (w n : Nat) (hc : Rectangular c w) :
    Rectangular (c.drop n) w :=
  fun r hr => hc r (List.mem_of_mem_drop hr)

theorem Rectangular_single (w : Nat) : Rectangular [makeRow (w : Int)] w := by
  intro r hr
  rw [List.mem_singleton] at hr
  rw [hr, rowLen_makeRow]

/-! ## The invariant under navigation -/

theorem Up_inv (tw : TableWidget) (h : WidgetInv tw) : WidgetInv (Up tw) := by
  unfold WidgetInv at h ⊢
  obtain ⟨h1, h2, h3, h4, h5, h6, h7⟩ := h
  simp only [Up, ContentsWH_eq]
  split_ifs <;> simp_all <;> omega

theorem Down_inv (tw : TableWidget) (h : WidgetInv tw) : WidgetInv (Down tw) := by
  unfold WidgetInv at h ⊢
  obtain ⟨h1, h2, h3, h4, h5, h6, h7⟩ := h
  simp only [Down, ContentsWH_eq]
  split_ifs <;> simp_all <;> omega

theorem Left_inv (tw : TableWidget) (h : WidgetInv tw) : WidgetInv (Left tw) := by
  unfold WidgetInv at h ⊢
  obtain ⟨h1, h2, h3, h4, h5, h6, h7⟩ := h
  simp only [Left, ContentsWH_eq]
  split_ifs with ha <;> dsimp only at *
  · exact ⟨h1, h2, h3, by omega, by omega, h6, h7⟩
  · exact ⟨h1, h2, h3, by omega, by omega, h6, h7⟩

theorem Right_inv (tw : TableWidget) (h : WidgetInv tw) : WidgetInv (Right tw) := by
  unfold WidgetInv at h ⊢
  obtain ⟨h1, h2, h3, h4, h5, h6, h7⟩ := h
  simp only [Right, ContentsWH_eq]
  split_ifs with ha <;> dsimp only
  · exact ⟨h1, h2, h3, le_refl _, by omega, h6, h7⟩
  · exact ⟨h1, h2, h3, by omega, by omega, h6, h7⟩

theorem NextOrInsert_inv (tw : TableWidget) (h : WidgetInv tw) :
    WidgetInv (NextOrInsert tw) := by
  unfold WidgetInv at h ⊢
  obtain ⟨h1, h2, h3, h4, h5, h6, h7⟩ := h
  simp only [NextOrInsert, ContentsWH_eq]
  split_ifs with ha hb <;> dsimp only at *
  · have hw : gridWidth (tw.contents ++ [makeRow (gridWidth tw.contents : Int)])
        = gridWidth tw.contents := gridWidth_append _ _ h1
    simp only [hw, List.length_append, List.length_singleton]
    refine ⟨by omega, h2, ?_, le_refl _, by omega, by omega, by push_cast; omega⟩
    exact Rectangular_append _ _ _ h3 (Rectangular_single _)
  · simp only [ge_iff_le, not_le] at hb
    exact ⟨h1, h2, h3, le_refl _, by omega, by omega, hb⟩
  · simp only [ge_iff_le, not_le] at ha
    exact ⟨h1, h2, h3, by omega, ha, h6, h7⟩

theorem InsertRowBelow_inv (tw : TableWidget) (h : WidgetInv tw) :
    ∃ tw1, InsertRowBelow tw = some tw1 ∧ WidgetInv tw1 := by
  unfold WidgetInv at h
  obtain ⟨h1, h2, h3, h4, h5, h6, h7⟩ := h
  have hg : 0 ≤ tw.cy + 1 ∧ tw.cy + 1 ≤ (tw.contents.length : Int) := by omega
  refine ⟨_, by simp only [InsertRowBelow, ContentsWH_eq, if_pos hg]; rfl, ?_⟩
  have hn : 1 ≤ (tw.cy + 1).toNat := by omega
  have hlen : ((tw.contents.take (tw.cy + 1).toNat).length : Int) = tw.cy + 1 := by
    rw [List.length_take]; omega
  have hw : gridWidth (tw.contents.take (tw.cy + 1).toNat ++
      ([makeRow (gridWidth tw.contents : Int)] ++ tw.contents.drop (tw.cy + 1).toNat))
        = gridWidth tw.contents := by
    rw [gridWidth_append _ _ (by rw [List.length_take]; omega), gridWidth_take _ _ hn]
  unfold WidgetInv
  simp only [hw, List.length_append, List.length_singleton, List.length_drop]
  refine ⟨by omega, h2, ?_, le_refl _, by omega, by omega, by omega⟩
  exact Rectangular_append _ _ _ (Rectangular_take _ _ _ h3)
    (Rectangular_append _ _ _ (Rectangular_single _) (Rectangular_drop _ _ _ h3))

theorem NavOp_apply_inv (op : NavOp) (tw : TableWidget) (h : WidgetInv tw) :
    ∃ tw1, op.apply tw = some tw1 ∧ WidgetInv tw1 := by
  cases op with
  | up => exact ⟨_, rfl, Up_inv tw h⟩
  | down => exact ⟨_, rfl, Down_inv tw h⟩
  | left => exact ⟨_, rfl, Left_inv tw h⟩
  | right => exact ⟨_, rfl, Right_inv tw h⟩
  | nextOrInsert => exact ⟨_, rfl, NextOrInsert_inv tw h⟩
  | insertRowBelow => exact InsertRowBelow_inv tw h

theorem runOps_inv (ops : List NavOp) :
    ∀ tw : TableWidget, WidgetInv tw → ∃ tw1, runOps ops tw = some tw1 ∧ WidgetInv tw1 := by
  induction ops with
  | nil => intro tw h; exact ⟨tw, rfl, h⟩
  | cons op ops ih =>
    intro tw h
    obtain ⟨tw1, h1, hinv⟩ := NavOp_apply_inv op tw h
    obtain ⟨tw2, h2, hinv2⟩ := ih tw1 hinv
    exact ⟨tw2, by simp only [runOps, h1, h2], hinv2⟩

/-- C2: on a rectangular grid of width `W ≥ 1` and height `H ≥ 1` with the
cursor in `[0, W) × [0, H)`, each of `Up`, `Down`, `Left`, `Right`,
`NextOrInsert` and `InsertRowBelow` returns, and leaves the grid rectangular
and non-empty and the cursor within the bounds of the resulting grid; hence
the same holds after every finite sequence of these operations. -/
theorem navigation_keeps_cursor_valid (tw : TableWidget) (W H : Nat)
    (hW : 1 ≤ W) (hH : 1 ≤ H) (hheight : tw.contents.length = H)
    (hrect : Rectangular tw.contents W)
    (hcx : 0 ≤ tw.cx ∧ tw.cx < (W : Int)) (hcy : 0 ≤ tw.cy ∧ tw.cy < (H : Int)) :
    WidgetInv (Up tw) ∧ WidgetInv (Down tw) ∧ WidgetInv (Left tw) ∧
    WidgetInv (Right tw) ∧ WidgetInv (NextOrInsert tw) ∧
    (∃ tw1, InsertRowBelow tw = some tw1 ∧ WidgetInv tw1) ∧
    ∀ ops : List NavOp, ∃ tw1, runOps ops tw = some tw1 ∧ WidgetInv tw1 := by
  have hgw : gridWidth tw.contents = W := by
    cases hc : tw.contents with
    | nil => rw [hc] at hheight; simp at hheight; omega
    | cons r rs => exact hrect r (by rw [hc]; exact List.mem_cons_self r rs)
  have h : WidgetInv tw := by
    unfold WidgetInv
    rw [hgw, hheight]
    exact ⟨hH, hW, hrect, hcx.1, hcx.2, hcy.1, hcy.2⟩
  exact ⟨Up_inv tw h, Down_inv tw h, Left_inv tw h, Right_inv tw h,
    NextOrInsert_inv tw h, InsertRowBelow_inv tw h, fun ops => runOps_inv ops tw h⟩

/-- C2 at the grid `[["a","bb"],["c","d"]]` with the cursor at `(1, 1)`. -/
theorem navigation_keeps_cursor_valid_witness :
    let tw := mkWidget [some ["a", "bb"], some ["c", "d"]] 1 1
    WidgetInv (Up tw) ∧ WidgetInv (Down tw) ∧ WidgetInv (Left tw) ∧
    WidgetInv (Right tw) ∧ WidgetInv (NextOrInsert tw) ∧
    (∃ tw1, InsertRowBelow tw = some tw1 ∧ WidgetInv tw1) ∧
    ∀ ops : List NavOp, ∃ tw1, runOps ops tw = some tw1 ∧ WidgetInv tw1 :=
  navigation_keeps_cursor_valid (mkWidget [some ["a", "bb"], some ["c", "d"]] 1 1) 2 2
    (by decide) (by decide) (by decide) (by decide) (by decide) (by decide)

/-! ## NextOrInsert -/

theorem NextOrInsert_advance (tw : TableWidget)
    (h : tw.cx + 1 < (gridWidth tw.contents : Int)) :
    (NextOrInsert tw).contents = tw.contents ∧ (NextOrInsert tw).cx = tw.cx + 1 ∧
    (NextOrInsert tw).cy = tw.cy := by
  have hn : ¬ (tw.cx + 1 ≥ (gridWidth tw.contents : Int)) := by omega
  simp only [NextOrInsert, ContentsWH_eq, if_neg hn, and_self]

theorem NextOrInsert_wrap (tw : TableWidget)
    (h : (gridWidth tw.contents : Int) ≤ tw.cx + 1)
    (hy : tw.cy + 1 < (tw.contents.length : Int)) :
    (NextOrInsert tw).contents = tw.contents ∧ (NextOrInsert tw).cx = 0 ∧
    (NextOrInsert tw).cy = tw.cy + 1 := by
  have hn : ¬ (tw.cy + 1 ≥ (tw.contents.length : Int)) := by omega
  simp only [NextOrInsert, ContentsWH_eq, ge_iff_le, if_pos h, if_neg hn, and_self]

theorem NextOrInsert_grow (tw : TableWidget)
    (h : (gridWidth tw.contents : Int) ≤ tw.cx + 1)
    (hy : (tw.contents.length : Int) ≤ tw.cy + 1) :
    (NextOrInsert tw).contents = tw.contents ++ [makeRow (gridWidth tw.contents : Int)] ∧
    (NextOrInsert tw).cx = 0 ∧ (NextOrInsert tw).cy = (tw.contents.length : Int) := by
  simp only [NextOrInsert, ContentsWH_eq, ge_iff_le, if_pos h, if_pos hy, and_self]

theorem NextOrInsert_iterate (W H : Nat) (c : List Row)
    (hW : gridWidth c = W) (hH : c.length = H) (tw : TableWidget)
    (hc : tw.contents = c) (hx : tw.cx = 0) (hy : tw.cy = 0) :
    ∀ k x y : Nat, y * W + x = k → x < W → y < H →
      (NextOrInsert^[k] tw).contents = c ∧ (NextOrInsert^[k] tw).cx = (x : Int) ∧
      (NextOrInsert^[k] tw).cy = (y : Int) := by
  intro k
  induction k with
  | zero =>
    intro x y hk hxW _
    have hx0 : x = 0 := by omega
    have hy0 : y = 0 := by
      rcases Nat.eq_zero_or_pos y with h0 | hpos
      · exact h0
      · have : W ≤ y * W := Nat.le_mul_of_pos_left W hpos
        omega
    subst hx0 hy0
    simp [hc, hx, hy]
  | succ k ih =>
    intro x y hk hxW hyH
    rw [Function.iterate_succ_apply']
    cases x with
    | zero =>
      cases y with
      | zero => simp at hk
      | succ y1 =>
        rw [Nat.succ_mul] at hk
        obtain ⟨h1, h2, h3⟩ := ih (W - 1) y1 (by omega) (by omega) (by omega)
        obtain ⟨g1, g2, g3⟩ := NextOrInsert_wrap (NextOrInsert^[k] tw)
          (by rw [h1, h2, hW]; omega) (by rw [h1, h3, hH]; omega)
        rw [h1] at g1
        rw [h3] at g3
        exact ⟨g1, by rw [g2]; rfl, by rw [g3]; push_cast; rfl⟩
    | succ x1 =>
      obtain ⟨h1, h2, h3⟩ := ih x1 y (by omega) (by omega) hyH
      obtain ⟨g1, g2, g3⟩ := NextOrInsert_advance (NextOrInsert^[k] tw)
        (by rw [h1, h2, hW]; omega)
      rw [h1] at g1
      rw [h2] at g2
      rw [h3] at g3
      exact ⟨g1, by rw [g2]; push_cast; rfl, g3⟩

/-- C3: on a rectangular grid of width `W ≥ 1` and height `H ≥ 1` with the
cursor at `(0, 0)`, `W * H` calls of `NextOrInsert` append exactly one row
(of `W` empty cells) after the `H` unchanged original rows, so the height
becomes `H + 1`, and leave the cursor at column 0, row `H`. -/
theorem NextOrInsert_fills_then_grows (tw : TableWidget) (W H : Nat)
    (hW : 1 ≤ W) (hH : 1 ≤ H) (hheight : tw.contents.length = H)
    (hrect : Rectangular tw.contents W) (hx : tw.cx = 0) (hy : tw.cy = 0) :
    (NextOrInsert^[W * H] tw).contents = tw.contents ++ [some (List.replicate W "")] ∧
    (NextOrInsert^[W * H] tw).contents.length = H + 1 ∧
    (NextOrInsert^[W * H] tw).contents.take H = tw.contents ∧
    (NextOrInsert^[W * H] tw).cx = 0 ∧
    (NextOrInsert^[W * H] tw).cy = (H : Int) := by
  have hgw : gridWidth tw.contents = W :=
    gridWidth_of_Rectangular _ _ hrect (by omega)
  obtain ⟨H1, rfl⟩ : ∃ H1, H = H1 + 1 := ⟨H - 1, by omega⟩
  have hk : W * (H1 + 1) = (H1 * W + (W - 1)) + 1 := by
    rw [Nat.mul_succ, Nat.mul_comm W H1]; omega
  obtain ⟨h1, h2, h3⟩ := NextOrInsert_iterate W (H1 + 1) tw.contents hgw hheight tw rfl hx hy
    (H1 * W + (W - 1)) (W - 1) H1 rfl (by omega) (by omega)
  rw [hk, Function.iterate_succ_apply']
  obtain ⟨g1, g2, g3⟩ := NextOrInsert_grow (NextOrInsert^[H1 * W + (W - 1)] tw)
    (by rw [h1, h2, hgw]; omega) (by rw [h1, h3, hheight]; push_cast; omega)
  rw [h1, hgw, makeRow_eq] at g1
  rw [h1, hheight] at g3
  refine ⟨g1, ?_, ?_, g2, g3⟩
  · rw [g1, List.length_append, hheight, List.length_singleton]
  · rw [g1, ← hheight, List.take_left]

/-- C3 at the grid `[["a","bb"],["c","d"]]`: four calls from `(0, 0)`. -/
theorem NextOrInsert_fills_then_grows_witness :
    let tw := mkWidget [some ["a", "bb"], some ["c", "d"]] 0 0
    (NextOrInsert^[2 * 2] tw).contents = tw.contents ++ [some (List.replicate 2 "")] ∧
    (NextOrInsert^[2 * 2] tw).contents.length = 2 + 1 ∧
    (NextOrInsert^[2 * 2] tw).contents.take 2 = tw.contents ∧
    (NextOrInsert^[2 * 2] tw).cx = 0 ∧
    (NextOrInsert^[2 * 2] tw).cy = ((2 : Nat) : Int) :=
  NextOrInsert_fills_then_grows (mkWidget [some ["a", "bb"], some ["c", "d"]] 0 0) 2 2
    (by decide) (by decide) (by decide) (by decide) (by decide) (by decide)

/-- C4: one `NextOrInsert` on a rectangular `W × H` grid (`W, H ≥ 1`) with a
valid cursor `(cx, cy)`. If `cx < W - 1` the grid is unchanged and the cursor
becomes `(cx + 1, cy)`; if `cx = W - 1` and `cy < H - 1` the grid is unchanged
and the cursor becomes `(0, cy + 1)`; if `cx = W - 1` and `cy = H - 1` one row
of `W` empty strings is appended after the unchanged rows and the cursor
becomes `(0, H)`. On `[["a","bb"],["c","d"]]` from `(1, 1)` the row `["",""]`
is appended, the cursor becomes `(0, 2)` and the height 3. -/
theorem NextOrInsert_cases (tw : TableWidget) (W H : Nat)
    (_hW : 1 ≤ W) (hH : 1 ≤ H) (hheight : tw.contents.length = H)
    (hrect : Rectangular tw.contents W)
    (_hcx : 0 ≤ tw.cx ∧ tw.cx < (W : Int)) (_hcy : 0 ≤ tw.cy ∧ tw.cy < (H : Int)) :
    (tw.cx < (W : Int) - 1 →
      (NextOrInsert tw).contents = tw.contents ∧
      (NextOrInsert tw).cx = tw.cx + 1 ∧ (NextOrInsert tw).cy = tw.cy) ∧
    (tw.cx = (W : Int) - 1 → tw.cy < (H : Int) - 1 →
      (NextOrInsert tw).contents = tw.contents ∧
      (NextOrInsert tw).cx = 0 ∧ (NextOrInsert tw).cy = tw.cy + 1) ∧
    (tw.cx = (W : Int) - 1 → tw.cy = (H : Int) - 1 →
      (NextOrInsert tw).contents = tw.contents ++ [some (List.replicate W "")] ∧
      (NextOrInsert tw).contents.length = H + 1 ∧
      (NextOrInsert tw).cx = 0 ∧ (NextOrInsert tw).cy = (H : Int)) ∧
    ((NextOrInsert (mkWidget [some ["a", "bb"], some ["c", "d"]] 1 1)).contents
        = [some ["a", "bb"], some ["c", "d"], some ["", ""]] ∧
      (NextOrInsert (mkWidget [some ["a", "bb"], some ["c", "d"]] 1 1)).cx = 0 ∧
      (NextOrInsert (mkWidget [some ["a", "bb"], some ["c", "d"]] 1 1)).cy = 2 ∧
      (NextOrInsert (mkWidget [some ["a", "bb"], some ["c", "d"]] 1 1)).contents.length
        = 3) := by
  have hgw : gridWidth tw.contents = W :=
    gridWidth_of_Rectangular _ _ hrect (by omega)
  refine ⟨fun h => ?_, fun h hy => ?_, fun h hy => ?_, by decide⟩
  · exact NextOrInsert_advance tw (by rw [hgw]; omega)
  · exact NextOrInsert_wrap tw (by rw [hgw]; omega) (by rw [hheight]; omega)
  · obtain ⟨g1, g2, g3⟩ := NextOrInsert_grow tw (by rw [hgw]; omega) (by rw [hheight]; omega)
    rw [hgw, makeRow_eq] at g1
    rw [hheight] at g3
    exact ⟨g1, by rw [g1, List.length_append, hheight, List.length_singleton], g2, g3⟩

/-- C4 at the grid `[["a","bb"],["c","d"]]` with the cursor at `(1, 1)`. -/
theorem NextOrInsert_cases_witness :
    (NextOrInsert (mkWidget [some ["a", "bb"], some ["c", "d"]] 1 1)).contents
        = [some ["a", "bb"], some ["c", "d"]] ++ [some (List.replicate 2 "")] ∧
      (NextOrInsert (mkWidget [some ["a", "bb"], some ["c", "d"]] 1 1)).contents.length
        = 2 + 1 ∧
      (NextOrInsert (mkWidget [some ["a", "bb"], some ["c", "d"]] 1 1)).cx = 0 ∧
      (NextOrInsert (mkWidget [some ["a", "bb"], some ["c", "d"]] 1 1)).cy = ((2 : Nat) : Int) :=
  (NextOrInsert_cases (mkWidget [some ["a", "bb"], some ["c", "d"]] 1 1) 2 2
    (by decide) (by decide) (by decide) (by decide) (by decide) (by decide)).2.2.1
    (by decide) (by decide)

/-! ## Inserting and deleting rows -/

theorem InsertRowBelow_eq (tw : TableWidget) (n : Nat) (hcy : tw.cy = (n : Int))
    (hn : n < tw.contents.length) :
    ∃ tw1, InsertRowBelow tw = some tw1 ∧
      tw1.contents = tw.contents.take (n + 1) ++
        ([some (List.replicate (gridWidth tw.contents) "")] ++ tw.contents.drop (n + 1)) ∧
      tw1.cx = 0 ∧ tw1.cy = (n : Int) + 1 := by
  have hg : 0 ≤ tw.cy + 1 ∧ tw.cy + 1 ≤ (tw.contents.length : Int) := by omega
  have ht : (tw.cy + 1).toNat = n + 1 := by omega
  refine ⟨_, by simp only [InsertRowBelow, ContentsWH_eq, if_pos hg]; rfl, ?_, rfl, ?_⟩
  · simp only [ht, makeRow_eq]
  · simp only [hcy]

theorem insert_index_before (g : List Row) (r : Row) (n i : Nat)
    (hn : n < g.length) (hi : i ≤ n) :
    (g.take (n + 1) ++ ([r] ++ g.drop (n + 1)))[i]? = g[i]? := by
  rw [List.getElem?_append_left (by rw [List.length_take]; omega),
    List.getElem?_take_of_lt (by omega)]

theorem insert_index_at (g : List Row) (r : Row) (n : Nat) (hn : n < g.length) :
    (g.take (n + 1) ++ ([r] ++ g.drop (n + 1)))[n + 1]? = some r := by
  have hl : (g.take (n + 1)).length = n + 1 := by rw [List.length_take]; omega
  rw [List.getElem?_append_right (by omega), hl, Nat.sub_self]
  simp

theorem insert_index_after (g : List Row) (r : Row) (n i : Nat)
    (hn : n < g.length) (hi : n + 1 ≤ i) :
    (g.take (n + 1) ++ ([r] ++ g.drop (n + 1)))[i + 1]? = g[i]? := by
  have hl : (g.take (n + 1)).length = n + 1 := by rw [List.length_take]; omega
  rw [List.getElem?_append_right (by omega), hl,
    List.getElem?_append_right (by simp; omega), List.getElem?_drop]
  congr 1
  simp only [List.length_singleton]
  omega

/-- C5: on a non-empty grid of width `W` and height `H` with the cursor row
`cy` in `[0, H)`, `InsertRowBelow` returns a grid of height `H + 1` whose
rows `0..cy` are the original rows `0..cy`, whose row `cy + 1` is a new row
of `W` empty strings and whose rows `cy + 2..H` are the original rows
`cy + 1..H - 1` in order; the cursor ends at column 0, row `cy + 1`. -/
theorem InsertRowBelow_spec (tw : TableWidget) (W H n : Nat)
    (_hH : 1 ≤ H) (hheight : tw.contents.length = H)
    (hwidth : gridWidth tw.contents = W) (hcy : tw.cy = (n : Int)) (hn : n < H) :
    ∃ tw1, InsertRowBelow tw = some tw1 ∧
      tw1.contents.length = H + 1 ∧
      (∀ i, i ≤ n → tw1.contents[i]? = tw.contents[i]?) ∧
      tw1.contents[n + 1]? = some (some (List.replicate W "")) ∧
      (∀ i, n + 1 ≤ i → i < H → tw1.contents[i + 1]? = tw.contents[i]?) ∧
      tw1.cx = 0 ∧ tw1.cy = (n : Int) + 1 := by
  have hn1 : n < tw.contents.length := by omega
  obtain ⟨tw1, h1, h2, h3, h4⟩ := InsertRowBelow_eq tw n hcy hn1
  refine ⟨tw1, h1, ?_, ?_, ?_, ?_, h3, h4⟩
  · rw [h2]
    simp only [List.length_append, List.length_take, List.length_singleton, List.length_drop]
    omega
  · intro i hi
    rw [h2]
    exact insert_index_before _ _ n i hn1 hi
  · rw [h2, hwidth]
    exact insert_index_at _ _ n hn1
  · intro i hi _
    rw [h2]
    exact insert_index_after _ _ n i hn1 hi

/-- C5 at the grid `[["a","bb"],["c","d"],["e","f"]]` with the cursor on
row 1. -/
theorem InsertRowBelow_spec_witness :
    ∃ tw1, InsertRowBelow (mkWidget [some ["a", "bb"], some ["c", "d"], some ["e", "f"]] 1 1)
        = some tw1 ∧
      tw1.contents.length = 3 + 1 ∧
      (∀ i, i ≤ 1 → tw1.contents[i]? =
        [some ["a", "bb"], some ["c", "d"], some ["e", "f"]][i]?) ∧
      tw1.contents[1 + 1]? = some (some (List.replicate 2 "")) ∧
      (∀ i, 1 + 1 ≤ i → i < 3 → tw1.contents[i + 1]? =
        [some ["a", "bb"], some ["c", "d"], some ["e", "f"]][i]?) ∧
      tw1.cx = 0 ∧ tw1.cy = ((1 : Nat) : Int) + 1 :=
  InsertRowBelow_spec (mkWidget [some ["a", "bb"], some ["c", "d"], some ["e", "f"]] 1 1)
    2 3 1 (by decide) (by decide) (by decide) (by decide) (by decide)

theorem DeleteCurrentRow_eq (tw : TableWidget) (n : Nat) (hcy : tw.cy = (n : Int))
    (hn : n < tw.contents.length) :
    (DeleteCurrentRow tw).contents = tw.contents.eraseIdx n ∧
    (DeleteCurrentRow tw).cy = (n : Int) - 1 ∧
    (DeleteCurrentRow tw).cx = tw.cx := by
  have hg : tw.cy ≥ 0 ∧ tw.cy < (tw.contents.length : Int) := by omega
  have ht : tw.cy.toNat = n := by omega
  have ht1 : (tw.cy + 1).toNat = n + 1 := by omega
  rw [DeleteCurrentRow, if_pos hg]
  dsimp only
  rw [ht, ht1, hcy, List.eraseIdx_eq_take_drop_succ]
  exact ⟨rfl, rfl, rfl⟩

/-- C6: on a grid of height `H ≥ 1` with the cursor row `cy` in `[0, H)`,
`DeleteCurrentRow` yields the grid of height `H - 1` that is the original
with exactly row `cy` removed: rows before `cy` are unchanged and every row
after `cy` moves down by one index (the successor of the deleted row is at
index `cy`); the cursor row becomes `cy - 1` and the column is unchanged. -/
theorem DeleteCurrentRow_spec (tw : TableWidget) (H n : Nat)
    (_hH : 1 ≤ H) (hheight : tw.contents.length = H)
    (hcy : tw.cy = (n : Int)) (hn : n < H) :
    (DeleteCurrentRow tw).contents = tw.contents.eraseIdx n ∧
    (DeleteCurrentRow tw).contents.length = H - 1 ∧
    (∀ i, i < n → (DeleteCurrentRow tw).contents[i]? = tw.contents[i]?) ∧
    (∀ i, n ≤ i → (DeleteCurrentRow tw).contents[i]? = tw.contents[i + 1]?) ∧
    (DeleteCurrentRow tw).cy = (n : Int) - 1 ∧
    (DeleteCurrentRow tw).cx = tw.cx := by
  have hn1 : n < tw.contents.length := by omega
  obtain ⟨h1, h2, h3⟩ := DeleteCurrentRow_eq tw n hcy hn1
  refine ⟨h1, ?_, ?_, ?_, h2, h3⟩
  · rw [h1, List.length_eraseIdx, if_pos hn1, hheight]
  · intro i hi
    rw [h1, List.getElem?_eraseIdx_of_lt _ _ _ hi]
  · intro i hi
    rw [h1, List.getElem?_eraseIdx_of_ge _ _ _ hi]

/-- C6 at the grid `[["a"],["b"],["c"]]` with the cursor at `(0, 1)`. -/
theorem DeleteCurrentRow_spec_witness :
    (DeleteCurrentRow (mkWidget [some ["a"], some ["b"], some ["c"]] 0 1)).contents
      = [some ["a"], some ["c"]] ∧
    (DeleteCurrentRow (mkWidget [some ["a"], some ["b"], some ["c"]] 0 1)).cy = 0 :=
  have h := DeleteCurrentRow_spec (mkWidget [some ["a"], some ["b"], some ["c"]] 0 1) 3 1
    (by decide) (by decide) (by decide) (by decide)
  ⟨h.1, h.2.2.2.2.1⟩

/-- C7, refuted as stated: on the rectangular two-row grid `[["a"],["b"]]`
with the valid cursor `(0, 0)`, `DeleteCurrentRow` leaves the non-empty grid
`[["b"]]` and the cursor row `-1`, outside `[0, height)`. -/
theorem DeleteCurrentRow_row_zero_leaves_bounds :
    WidgetInv (mkWidget [some ["a"], some ["b"]] 0 0) ∧
    2 ≤ (mkWidget [some ["a"], some ["b"]] 0 0).contents.length ∧
    (DeleteCurrentRow (mkWidget [some ["a"], some ["b"]] 0 0)).contents = [some ["b"]] ∧
    (DeleteCurrentRow (mkWidget [some ["a"], some ["b"]] 0 0)).cy = -1 ∧
    ¬ WidgetInv (DeleteCurrentRow (mkWidget [some ["a"], some ["b"]] 0 0)) := by
  decide

/-- C7, amended: on a rectangular grid of width `W ≥ 1` with at least two
rows and a cursor within bounds whose row is at least 1, `DeleteCurrentRow`
leaves the grid rectangular and non-empty and the cursor within
`[0, width) × [0, height)` of the resulting grid. -/
theorem DeleteCurrentRow_keeps_cursor_valid (tw : TableWidget) (W H : Nat)
    (hW : 1 ≤ W) (hH : 2 ≤ H) (hheight : tw.contents.length = H)
    (hrect : Rectangular tw.contents W)
    (hcx : 0 ≤ tw.cx ∧ tw.cx < (W : Int)) (hcy : 1 ≤ tw.cy ∧ tw.cy < (H : Int)) :
    WidgetInv (DeleteCurrentRow tw) := by
  obtain ⟨n, hn⟩ : ∃ n : Nat, tw.cy = (n : Int) := ⟨tw.cy.toNat, by omega⟩
  have hn1 : n < tw.contents.length := by omega
  obtain ⟨h1, h2, h3⟩ := DeleteCurrentRow_eq tw n hn hn1
  have hlen : (tw.contents.eraseIdx n).length = H - 1 := by
    rw [List.length_eraseIdx, if_pos hn1, hheight]
  have hr : Rectangular (tw.contents.eraseIdx n) W := by
    rw [List.eraseIdx_eq_take_drop_succ]
    exact Rectangular_append _ _ _ (Rectangular_take _ _ _ hrect) (Rectangular_drop _ _ _ hrect)
  have hgw : gridWidth (tw.contents.eraseIdx n) = W :=
    gridWidth_of_Rectangular _ _ hr (by omega)
  unfold WidgetInv
  rw [h1, h2, h3, hgw, hlen]
  exact ⟨by omega, hW, hr, hcx.1, hcx.2, by omega, by omega⟩

/-- C7, amended, at the grid `[["a"],["b"]]` with the cursor at `(0, 1)`. -/
theorem DeleteCurrentRow_keeps_cursor_valid_witness :
    WidgetInv (DeleteCurrentRow (mkWidget [some ["a"], some ["b"]] 0 1)) :=
  DeleteCurrentRow_keeps_cursor_valid (mkWidget [some ["a"], some ["b"]] 0 1) 1 2
    (by decide) (by decide) (by decide) (by decide) (by decide) (by decide)

/-! ## Selection -/

/-- C8, evaluated on the code: `SelectIndex` compares each coordinate with
the upper bound only, so on the grid `[["a"]]` with the cursor at `(0, 0)` the
calls `SelectIndex(-1, 0)` and `SelectIndex(0, -1)` return true and move the
cursor to `(-1, 0)` and `(0, -1)`. -/
theorem SelectIndex_accepts_negative :
    SelectIndex (mkWidget [some ["a"]] 0 0) (-1) 0 =
      (true, { mkWidget [some ["a"]] 0 0 with cx := -1 }) ∧
    SelectIndex (mkWidget [some ["a"]] 0 0) 0 (-1) =
      (true, { mkWidget [some ["a"]] 0 0 with cy := -1 }) := by
  decide

theorem SelectIndex_ok (tw : TableWidget) (x y : Int)
    (hx : x < (gridWidth tw.contents : Int)) (hy : y < (tw.contents.length : Int)) :
    SelectIndex tw x y =
      (true, { tw with oldx := tw.cx, oldy := tw.cy, cx := x, cy := y }) := by
  have hn : ¬ (x ≥ (gridWidth tw.contents : Int) ∨ y ≥ (tw.contents.length : Int)) := by omega
  simp only [SelectIndex, ContentsWH_eq, if_neg hn]

/-- C9: on a non-empty grid, for `0 ≤ x < width` and `0 ≤ y < height`,
`SelectIndex(x, y)` returns true, sets the cursor to `(x, y)`, sets the
previous cursor to the cursor held before the call and does not change the
grid. -/
theorem SelectIndex_in_range (tw : TableWidget) (x y : Int)
    (_hne : 1 ≤ tw.contents.length)
    (hx : 0 ≤ x ∧ x < (gridWidth tw.contents : Int))
    (hy : 0 ≤ y ∧ y < (tw.contents.length : Int)) :
    (SelectIndex tw x y).1 = true ∧
    (SelectIndex tw x y).2.cx = x ∧ (SelectIndex tw x y).2.cy = y ∧
    (SelectIndex tw x y).2.oldx = tw.cx ∧ (SelectIndex tw x y).2.oldy = tw.cy ∧
    (SelectIndex tw x y).2.contents = tw.contents := by
  rw [SelectIndex_ok tw x y hx.2 hy.2]
  exact ⟨rfl, rfl, rfl, rfl, rfl, rfl⟩

/-- C9 at the grid `[["a","bb"],["c","d"]]`: from `(0, 0)` to `(1, 1)`. -/
theorem SelectIndex_in_range_witness :
    (SelectIndex (mkWidget [some ["a", "bb"], some ["c", "d"]] 0 0) 1 1).1 = true ∧
    (SelectIndex (mkWidget [some ["a", "bb"], some ["c", "d"]] 0 0) 1 1).2.cx = 1 ∧
    (SelectIndex (mkWidget [some ["a", "bb"], some ["c", "d"]] 0 0) 1 1).2.cy = 1 ∧
    (SelectIndex (mkWidget [some ["a", "bb"], some ["c", "d"]] 0 0) 1 1).2.oldx = 0 ∧
    (SelectIndex (mkWidget [some ["a", "bb"], some ["c", "d"]] 0 0) 1 1).2.oldy = 0 ∧
    (SelectIndex (mkWidget [some ["a", "bb"], some ["c", "d"]] 0 0) 1 1).2.contents
      = [some ["a", "bb"], some ["c", "d"]] :=
  SelectIndex_in_range (mkWidget [some ["a", "bb"], some ["c", "d"]] 0 0) 1 1
    (by decide) (by decide) (by decide)

/-- C10: on a non-empty grid of width `W ≥ 1` with a valid cursor row `cy`,
`SelectStart` returns true and moves the cursor to `(0, cy)`, and `SelectEnd`
returns true and moves the cursor to `(W - 1, cy)`; neither changes the row
or the grid. -/
theorem SelectStart_SelectEnd_spec (tw : TableWidget) (W : Nat)
    (_hne : 1 ≤ tw.contents.length) (hwidth : gridWidth tw.contents = W) (hW : 1 ≤ W)
    (hcy : 0 ≤ tw.cy ∧ tw.cy < (tw.contents.length : Int)) :
    ((SelectStart tw).1 = true ∧ (SelectStart tw).2.cx = 0 ∧
      (SelectStart tw).2.cy = tw.cy ∧ (SelectStart tw).2.contents = tw.contents) ∧
    ((SelectEnd tw).1 = true ∧ (SelectEnd tw).2.cx = (W : Int) - 1 ∧
      (SelectEnd tw).2.cy = tw.cy ∧ (SelectEnd tw).2.contents = tw.contents) := by
  constructor
  · rw [SelectStart, SelectIndex_ok tw 0 tw.cy (by omega) hcy.2]
    exact ⟨rfl, rfl, rfl, rfl⟩
  · rw [SelectEnd, ContentsWH_eq]
    dsimp only
    rw [SelectIndex_ok tw _ tw.cy (by omega) hcy.2, hwidth]
    exact ⟨rfl, rfl, rfl, rfl⟩

/-- C10 at the grid `[["a","bb"],["c","d"]]` with the cursor at `(1, 1)` for
`SelectStart`; `SelectEnd` is taken from the same instance. -/
theorem SelectStart_SelectEnd_spec_witness :
    (SelectStart (mkWidget [some ["a", "bb"], some ["c", "d"]] 1 1)).2.cx = 0 ∧
    (SelectEnd (mkWidget [some ["a", "bb"], some ["c", "d"]] 1 1)).2.cx = ((2 : Nat) : Int) - 1 :=
  have h := SelectStart_SelectEnd_spec (mkWidget [some ["a", "bb"], some ["c", "d"]] 1 1) 2
    (by decide) (by decide) (by decide) (by decide)
  ⟨h.1.2.1, h.2.2.1⟩

/-! ## Wrap-around -/

theorem wrapInc_iterate_lt (N : Int) :
    ∀ (k : Nat) (v : Int), v + k < N → (wrapInc N)^[k] v = v + k := by
  intro k
  induction k with
  | zero => intro v _; simp
  | succ k ih =>
    intro v hv
    have h1 : wrapInc N v = v + 1 := by
      unfold wrapInc
      rw [if_neg (by push_cast at hv; omega)]
    rw [Function.iterate_succ_apply, h1, ih (v + 1) (by push_cast at hv; omega)]
    push_cast
    omega

theorem wrapInc_cycle (N : Nat) (v : Int) (h0 : 0 ≤ v) (hN : v < N) :
    (wrapInc N)^[N] v = v := by
  have hsplit : N = v.toNat + ((N - 1 - v.toNat) + 1) := by omega
  have h1 : (wrapInc N)^[N - 1 - v.toNat] v = (N : Int) - 1 := by
    rw [wrapInc_iterate_lt N _ v (by omega)]
    omega
  have h2 : wrapInc N ((N : Int) - 1) = 0 := by
    unfold wrapInc
    rw [if_pos (by omega)]
  have h3 : (wrapInc N)^[v.toNat] 0 = v := by
    rw [wrapInc_iterate_lt N _ 0 (by omega)]
    omega
  have key : (wrapInc N)^[v.toNat + ((N - 1 - v.toNat) + 1)] v = v := by
    rw [Function.iterate_add_apply, Function.iterate_succ_apply', h1, h2, h3]
  rwa [← hsplit] at key

theorem wrapDec_iterate_ge (N : Int) :
    ∀ (k : Nat) (v : Int), (k : Int) ≤ v → (wrapDec N)^[k] v = v - k := by
  intro k
  induction k with
  | zero => intro v _; simp
  | succ k ih =>
    intro v hv
    have h1 : wrapDec N v = v - 1 := by
      unfold wrapDec
      rw [if_neg (by push_cast at hv; omega)]
    rw [Function.iterate_succ_apply, h1, ih (v - 1) (by push_cast at hv; omega)]
    push_cast
    omega

theorem wrapDec_cycle (N : Nat) (v : Int) (h0 : 0 ≤ v) (hN : v < N) :
    (wrapDec N)^[N] v = v := by
  have hsplit : N = (N - 1 - v.toNat) + (v.toNat + 1) := by omega
  have h1 : (wrapDec N)^[v.toNat] v = 0 := by
    rw [wrapDec_iterate_ge N _ v (by omega)]
    omega
  have h2 : wrapDec N 0 = (N : Int) - 1 := by
    unfold wrapDec
    rw [if_pos (by omega)]
  have h3 : (wrapDec N)^[N - 1 - v.toNat] ((N : Int) - 1) = v := by
    rw [wrapDec_iterate_ge N _ _ (by omega)]
    omega
  have key : (wrapDec N)^[(N - 1 - v.toNat) + (v.toNat + 1)] v = v := by
    rw [Function.iterate_add_apply, Function.iterate_succ_apply', h1, h2, h3]
  rwa [← hsplit] at key

theorem iterate_track (f : TableWidget → TableWidget) (P : TableWidget → Prop)
    (proj : TableWidget → Int) (g : Int → Int)
    (hstep : ∀ a, P a → P (f a) ∧ proj (f a) = g (proj a)) :
    ∀ (k : Nat) (a : TableWidget), P a → P (f^[k] a) ∧ proj (f^[k] a) = g^[k] (proj a) := by
  intro k
  induction k with
  | zero => intro a ha; exact ⟨ha, rfl⟩
  | succ k ih =>
    intro a ha
    obtain ⟨h1, h2⟩ := hstep a ha
    obtain ⟨h3, h4⟩ := ih (f a) h1
    rw [Function.iterate_succ_apply, Function.iterate_succ_apply, ← h2]
    exact ⟨h3, h4⟩

theorem Down_step (g : List Row) (x : Int) (hx : x < (gridWidth g : Int)) (tw : TableWidget)
    (h : tw.contents = g ∧ tw.cx = x) :
    ((Down tw).contents = g ∧ (Down tw).cx = x) ∧
      (Down tw).cy = wrapInc (g.length : Int) tw.cy := by
  obtain ⟨hg, hcx⟩ := h
  have hn : ¬ (tw.cx ≥ (gridWidth tw.contents : Int)) := by rw [hg, hcx]; omega
  simp only [Down, ContentsWH_eq, wrapInc]
  split_ifs <;> simp_all

theorem Up_step (g : List Row) (x : Int) (hx : x < (gridWidth g : Int)) (tw : TableWidget)
    (h : tw.contents = g ∧ tw.cx = x) :
    ((Up tw).contents = g ∧ (Up tw).cx = x) ∧
      (Up tw).cy = wrapDec (g.length : Int) tw.cy := by
  obtain ⟨hg, hcx⟩ := h
  have hn : ¬ (tw.cx ≥ (gridWidth tw.contents : Int)) := by rw [hg, hcx]; omega
  simp only [Up, ContentsWH_eq, wrapDec]
  split_ifs <;> simp_all

theorem Right_step (g : List Row) (y : Int) (tw : TableWidget)
    (h : tw.contents = g ∧ tw.cy = y) :
    ((Right tw).contents = g ∧ (Right tw).cy = y) ∧
      (Right tw).cx = wrapInc (gridWidth g : Int) tw.cx := by
  obtain ⟨hg, hcy⟩ := h
  simp only [Right, ContentsWH_eq, wrapInc]
  split_ifs <;> simp_all

theorem Left_step (g : List Row) (y : Int) (tw : TableWidget)
    (h : tw.contents = g ∧ tw.cy = y) :
    ((Left tw).contents = g ∧ (Left tw).cy = y) ∧
      (Left tw).cx = wrapDec (gridWidth g : Int) tw.cx := by
  obtain ⟨hg, hcy⟩ := h
  simp only [Left, ContentsWH_eq, wrapDec]
  split_ifs <;> simp_all

/-- C11: on a rectangular grid of height `H ≥ 1` with a valid cursor
`(cx, cy)`, `H` consecutive calls of `Down` return the cursor to `(cx, cy)`,
and so do `H` consecutive calls of `Up`; the grid is unchanged. -/
theorem vertical_wraparound (tw : TableWidget) (W H : Nat)
    (hH : 1 ≤ H) (hheight : tw.contents.length = H)
    (hrect : Rectangular tw.contents W)
    (hcx : 0 ≤ tw.cx ∧ tw.cx < (W : Int)) (hcy : 0 ≤ tw.cy ∧ tw.cy < (H : Int)) :
    ((Down^[H] tw).cx = tw.cx ∧ (Down^[H] tw).cy = tw.cy ∧
      (Down^[H] tw).contents = tw.contents) ∧
    ((Up^[H] tw).cx = tw.cx ∧ (Up^[H] tw).cy = tw.cy ∧
      (Up^[H] tw).contents = tw.contents) := by
  have hgw : gridWidth tw.contents = W :=
    gridWidth_of_Rectangular _ _ hrect (by omega)
  have hx : tw.cx < (gridWidth tw.contents : Int) := by rw [hgw]; exact hcx.2
  constructor
  · obtain ⟨⟨h1, h2⟩, h3⟩ := iterate_track Down
      (fun a => a.contents = tw.contents ∧ a.cx = tw.cx) (fun a => a.cy)
      (wrapInc (tw.contents.length : Int)) (Down_step tw.contents tw.cx hx) H tw ⟨rfl, rfl⟩
    rw [hheight, wrapInc_cycle H tw.cy hcy.1 hcy.2] at h3
    exact ⟨h2, h3, h1⟩
  · obtain ⟨⟨h1, h2⟩, h3⟩ := iterate_track Up
      (fun a => a.contents = tw.contents ∧ a.cx = tw.cx) (fun a => a.cy)
      (wrapDec (tw.contents.length : Int)) (Up_step tw.contents tw.cx hx) H tw ⟨rfl, rfl⟩
    rw [hheight, wrapDec_cycle H tw.cy hcy.1 hcy.2] at h3
    exact ⟨h2, h3, h1⟩

/-- C11 at the grid `[["a","bb"],["c","d"],["e","f"]]` from `(1, 2)`. -/
theorem vertical_wraparound_witness :
    ((Down^[3] (mkWidget [some ["a", "bb"], some ["c", "d"], some ["e", "f"]] 1 2)).cx = 1 ∧
      (Down^[3] (mkWidget [some ["a", "bb"], some ["c", "d"], some ["e", "f"]] 1 2)).cy = 2) ∧
    ((Up^[3] (mkWidget [some ["a", "bb"], some ["c", "d"], some ["e", "f"]] 1 2)).cx = 1 ∧
      (Up^[3] (mkWidget [some ["a", "bb"], some ["c", "d"], some ["e", "f"]] 1 2)).cy = 2) :=
  have h := vertical_wraparound
    (mkWidget [some ["a", "bb"], some ["c", "d"], some ["e", "f"]] 1 2) 2 3
    (by decide) (by decide) (by decide) (by decide) (by decide)
  ⟨⟨h.1.1, h.1.2.1⟩, ⟨h.2.1, h.2.2.1⟩⟩

/-- C12: on a non-empty grid of width `W ≥ 1` with the cursor column `cx`
in `[0, W)`, `W` consecutive calls of `Right` return the column to `cx`, and
so do `W` consecutive calls of `Left`; the row and the grid are unchanged. -/
theorem horizontal_wraparound (tw : TableWidget) (W : Nat)
    (_hne : 1 ≤ tw.contents.length) (_hW : 1 ≤ W) (hwidth : gridWidth tw.contents = W)
    (hcx : 0 ≤ tw.cx ∧ tw.cx < (W : Int)) :
    ((Right^[W] tw).cx = tw.cx ∧ (Right^[W] tw).cy = tw.cy ∧
      (Right^[W] tw).contents = tw.contents) ∧
    ((Left^[W] tw).cx = tw.cx ∧ (Left^[W] tw).cy = tw.cy ∧
      (Left^[W] tw).contents = tw.contents) := by
  constructor
  · obtain ⟨⟨h1, h2⟩, h3⟩ := iterate_track Right
      (fun a => a.contents = tw.contents ∧ a.cy = tw.cy) (fun a => a.cx)
      (wrapInc (gridWidth tw.contents : Int)) (Right_step tw.contents tw.cy) W tw ⟨rfl, rfl⟩
    rw [hwidth, wrapInc_cycle W tw.cx hcx.1 hcx.2] at h3
    exact ⟨h3, h2, h1⟩
  · obtain ⟨⟨h1, h2⟩, h3⟩ := iterate_track Left
      (fun a => a.contents = tw.contents ∧ a.cy = tw.cy) (fun a => a.cx)
      (wrapDec (gridWidth tw.contents : Int)) (Left_step tw.contents tw.cy) W tw ⟨rfl, rfl⟩
    rw [hwidth, wrapDec_cycle W tw.cx hcx.1 hcx.2] at h3
    exact ⟨h3, h2, h1⟩

/-- C12 at the grid `[["a","bb","c"],["d","e","f"]]` from `(1, 1)`. -/
theorem horizontal_wraparound_witness :
    (Right^[3] (mkWidget [some ["a", "bb", "c"], some ["d", "e", "f"]] 1 1)).cx = 1 ∧
    (Left^[3] (mkWidget [some ["a", "bb", "c"], some ["d", "e", "f"]] 1 1)).cx = 1 :=
  have h := horizontal_wraparound
    (mkWidget [some ["a", "bb", "c"], some ["d", "e", "f"]] 1 1) 3
    (by decide) (by decide) (by decide) (by decide)
  ⟨h.1.1, h.2.1⟩

/-! ## Irregular rows -/

/-- C13, evaluated on the code: `Up` and `Down` clamp the column against the
length of row 0 (the width `ContentsWH` reports), not against the row the
cursor lands on. On `[["a","b","c"],["d"]]` from `(2, 0)`, a cursor within
its row, both land on row 1, which has one cell, and keep the column 2. -/
theorem Up_Down_clamp_against_row_zero :
    (Down (mkWidget [some ["a", "b", "c"], some ["d"]] 2 0)).cy = 1 ∧
    (Down (mkWidget [some ["a", "b", "c"], some ["d"]] 2 0)).cx = 2 ∧
    (Up (mkWidget [some ["a", "b", "c"], some ["d"]] 2 0)).cy = 1 ∧
    (Up (mkWidget [some ["a", "b", "c"], some ["d"]] 2 0)).cx = 2 ∧
    [some ["a", "b", "c"], some ["d"]][1]? = some (some ["d"]) ∧
    rowLen (some ["d"]) = 1 := by
  decide

theorem rowLen_eq_length (r : Row) : rowLen r = (rowCells r).length := by
  cases r <;> rfl

theorem expandRow_cells (maxWidth : Nat) (r : Row) :
    rowCells (expandRow maxWidth r) =
      rowCells r ++ List.replicate (maxWidth - rowLen r) "" := by
  cases r with
  | none => simp [expandRow, makeRow, blankCells, rowCells, rowLen]
  | some backup =>
    simp only [expandRow]
    split_ifs with h
    · simp only [rowCells, rowLen, copyRow, blankCells, Int.toNat_ofNat, List.length_replicate,
        List.drop_replicate]
      rw [List.take_of_length_le (by omega)]
    · have h0 : maxWidth - backup.length = 0 := by omega
      simp [rowCells, rowLen, h0]

/-- C14: `Expand` keeps the number of rows; every row keeps its cells (for
each row `y` and each `x` below the original length of row `y`, cell `(y, x)`
is unchanged, so no row is truncated), and every cell added beyond a row's
original length is the empty string. -/
theorem Expand_keeps_cells (g : List Row) :
    (Expand g).length = g.length ∧
    ∀ (y : Nat) (r : Row), g[y]? = some r →
      ∃ r1, (Expand g)[y]? = some r1 ∧ rowLen r ≤ rowLen r1 ∧
        (∀ x, x < rowLen r → (rowCells r1)[x]? = (rowCells r)[x]?) ∧
        (∀ x, rowLen r ≤ x → x < rowLen r1 → (rowCells r1)[x]? = some "") := by
  refine ⟨by simp [Expand], ?_⟩
  intro y r hr
  refine ⟨expandRow (expandMaxWidth g.length g 0) r, by simp [Expand, hr], ?_, ?_, ?_⟩
  · rw [rowLen_eq_length, rowLen_eq_length, expandRow_cells, List.length_append]
    omega
  · intro x hx
    rw [expandRow_cells, List.getElem?_append_left (by rw [← rowLen_eq_length]; exact hx)]
  · intro x hx hx1
    rw [rowLen_eq_length (expandRow _ r), expandRow_cells, List.length_append,
      List.length_replicate, ← rowLen_eq_length] at hx1
    rw [expandRow_cells, List.getElem?_append_right (by rw [← rowLen_eq_length]; exact hx),
      ← rowLen_eq_length, List.getElem?_replicate, if_pos (by omega)]

/-- C14 at the grid `[["a","b","c"],["d"]]`, row 1. -/
theorem Expand_keeps_cells_witness :
    ∃ r1, (Expand [some ["a", "b", "c"], some ["d"]])[1]? = some r1 ∧
      rowLen (some ["d"]) ≤ rowLen r1 ∧
      (∀ x, x < rowLen (some ["d"]) → (rowCells r1)[x]? = (rowCells (some ["d"]))[x]?) ∧
      (∀ x, rowLen (some ["d"]) ≤ x → x < rowLen r1 → (rowCells r1)[x]? = some "") :=
  (Expand_keeps_cells [some ["a", "b", "c"], some ["d"]]).2 1 (some ["d"]) (by decide)

/-! ## Trimming -/

theorem updateEach_fold {α : Type} (f : α → α) (l : List α) :
    ∀ n : Nat, ∀ i : Nat,
      ((List.range n).foldl
        (fun acc i => match acc[i]? with
          | some a => acc.set i (f a)
          | none => acc) l)[i]? = if i < n then Option.map f l[i]? else l[i]? := by
  intro n
  induction n with
  | zero => intro i; simp
  | succ n ih =>
    intro i
    rw [List.range_succ, List.foldl_append]
    simp only [List.foldl_cons, List.foldl_nil]
    have hn := ih n
    rw [if_neg (Nat.lt_irrefl n)] at hn
    rw [hn]
    cases hl : l[n]? with
    | none =>
      simp only
      rw [ih i]
      by_cases h1 : i < n
      · rw [if_pos h1, if_pos (by omega)]
      · rw [if_neg h1]
        by_cases h2 : i < n + 1
        · have : i = n := by omega
          rw [if_pos h2, this, hl]; rfl
        · rw [if_neg h2]
    | some a =>
      simp only
      have hlen : n < ((List.range n).foldl
          (fun acc i => match acc[i]? with
            | some a => acc.set i (f a)
            | none => acc) l).length := by
        have := hn
        rw [hl] at this
        exact (List.getElem?_eq_some.mp this).1
      by_cases h1 : i = n
      · subst h1
        rw [List.getElem?_set_self hlen, if_pos (Nat.lt_succ_self i), hl]; rfl
      · rw [List.getElem?_set_ne (Ne.symm h1), ih i]
        by_cases h2 : i < n
        · rw [if_pos h2, if_pos (by omega)]
        · rw [if_neg h2, if_neg (by omega)]

theorem updateEach_eq_map {α : Type} (f : α → α) (l : List α) :
    updateEach f l = l.map f := by
  apply List.ext_getElem?
  intro i
  rw [updateEach, updateEach_fold f l l.length i, List.getElem?_map]
  by_cases h : i < l.length
  · rw [if_pos h]
  · rw [if_neg h, List.getElem?_eq_none (by omega)]; rfl

theorem dropWhile_rdropWhile_fix (p : Char → Bool) (l : List Char) :
    List.dropWhile p (List.rdropWhile p (List.dropWhile p l)) =
      List.rdropWhile p (List.dropWhile p l) := by
  cases hm : List.dropWhile p l with
  | nil => simp
  | cons a t =>
    have ha : p a = false := by
      have h := List.head_dropWhile_not p l (by rw [hm]; exact List.cons_ne_nil a t)
      simpa [hm] using h
    obtain ⟨s, hs⟩ := List.rdropWhile_prefix p (a :: t)
    cases hr : List.rdropWhile p (a :: t) with
    | nil => simp
    | cons b u =>
      rw [hr] at hs
      have hb : b = a := by
        have := congrArg List.head? hs
        simpa using this
      rw [hb]
      exact List.dropWhile_cons_of_neg (by simp [ha])

theorem TrimSpace_idempotent (s : String) : TrimSpace (TrimSpace s) = TrimSpace s := by
  unfold TrimSpace
  apply String.ext
  simp only
  rw [dropWhile_rdropWhile_fix, List.rdropWhile_idempotent]

theorem TrimSpace_eq_empty_iff (s : String) :
    TrimSpace s = "" ↔ ∀ ch ∈ s.data, isSpace ch = true := by
  unfold TrimSpace
  constructor
  · intro h
    have h1 : List.rdropWhile isSpace (List.dropWhile isSpace s.data) = [] :=
      congrArg String.data h
    have h2 := List.rdropWhile_eq_nil_iff.mp h1
    cases hm : List.dropWhile isSpace s.data with
    | nil => exact List.dropWhile_eq_nil_iff.mp hm
    | cons a t =>
      have ha := List.head_dropWhile_not isSpace s.data
        (by rw [hm]; exact List.cons_ne_nil a t)
      have ha1 : isSpace a = true := h2 a (by rw [hm]; exact List.mem_cons_self a t)
      simp [hm, ha1] at ha
  · intro h
    have h1 : List.dropWhile isSpace s.data = [] := List.dropWhile_eq_nil_iff.mpr h
    rw [h1]
    rfl

theorem rowIsBlank_iff (cells : List String) :
    rowIsBlank cells = true ↔ ∀ cell ∈ cells, TrimSpace cell = "" := by
  induction cells with
  | nil => simp [rowIsBlank]
  | cons cell rest ih =>
    unfold rowIsBlank
    by_cases h : TrimSpace cell = ""
    · simp [h, ih]
    · simp [h]

/-! ## What trimming white space means -/

theorem isSpace_iff_WhiteSpace (ch : Char) : isSpace ch = true ↔ WhiteSpace ch := by
  unfold isSpace WhiteSpace
  simp only [Bool.or_eq_true, Bool.and_eq_true, decide_eq_true_eq, beq_iff_eq,
    List.mem_cons, List.mem_singleton, List.not_mem_nil, or_false]
  omega

theorem rdropWhile_append_rtakeWhile (p : Char → Bool) (l : List Char) :
    List.rdropWhile p l ++ List.rtakeWhile p l = l := by
  unfold List.rdropWhile List.rtakeWhile
  rw [← List.reverse_append, List.takeWhile_append_dropWhile, List.reverse_reverse]

theorem rdropWhile_append_all (p : Char → Bool) (t post : List Char)
    (hpost : ∀ ch ∈ post, p ch = true) :
    List.rdropWhile p (t ++ post) = List.rdropWhile p t := by
  unfold List.rdropWhile
  rw [List.reverse_append,
    List.dropWhile_append_of_pos (fun a ha => hpost a (List.mem_reverse.mp ha))]

theorem trim_decomposition (p : Char → Bool) (l : List Char) :
    ∃ pre post : List Char,
      l = pre ++ List.rdropWhile p (List.dropWhile p l) ++ post ∧
      (∀ ch ∈ pre, p ch = true) ∧ (∀ ch ∈ post, p ch = true) ∧
      (∀ ch, (List.rdropWhile p (List.dropWhile p l)).head? = some ch → p ch = false) ∧
      (∀ ch, (List.rdropWhile p (List.dropWhile p l)).getLast? = some ch → p ch = false) := by
  refine ⟨List.takeWhile p l, List.rtakeWhile p (List.dropWhile p l), ?_,
    fun ch h => List.mem_takeWhile_imp h, fun ch h => List.mem_rtakeWhile_imp h, ?_, ?_⟩
  · rw [List.append_assoc, rdropWhile_append_rtakeWhile, List.takeWhile_append_dropWhile]
  · intro ch hch
    obtain ⟨ys, hys⟩ := List.head?_eq_some_iff.mp hch
    obtain ⟨post, hpost⟩ := List.rdropWhile_prefix p (List.dropWhile p l)
    rw [hys, List.cons_append] at hpost
    have hne : List.dropWhile p l ≠ [] := by rw [← hpost]; exact List.cons_ne_nil _ _
    have h := List.head_dropWhile_not p l hne
    have hhead : (List.dropWhile p l).head hne = ch := by
      simp only [← hpost, List.head_cons]
    rw [hhead] at h
    exact h
  · intro ch hch
    have hne : List.rdropWhile p (List.dropWhile p l) ≠ [] := by
      intro h0
      rw [h0] at hch
      simp at hch
    have h := List.rdropWhile_last_not p (List.dropWhile p l) hne
    rw [List.getLast?_eq_getLast _ hne] at hch
    rw [Option.some.inj hch] at h
    simpa using h

theorem trim_unique (p : Char → Bool) (l pre t post : List Char)
    (hl : l = pre ++ t ++ post)
    (hpre : ∀ ch ∈ pre, p ch = true) (hpost : ∀ ch ∈ post, p ch = true)
    (hhead : ∀ ch, t.head? = some ch → p ch = false)
    (hlast : ∀ ch, t.getLast? = some ch → p ch = false) :
    List.rdropWhile p (List.dropWhile p l) = t := by
  rw [hl, List.append_assoc, List.dropWhile_append_of_pos hpre]
  cases t with
  | nil =>
    rw [List.nil_append, List.dropWhile_eq_nil_iff.mpr hpost]
    rfl
  | cons a rest =>
    have ha : p a = false := hhead a rfl
    rw [List.cons_append, List.dropWhile_cons_of_neg (by simp [ha]), ← List.cons_append,
      rdropWhile_append_all p _ post hpost, List.rdropWhile_eq_self_iff]
    intro hne
    have := hlast _ (List.getLast?_eq_getLast _ hne)
    simp [this]

theorem TrimSpace_isTrimOf (s : String) : IsTrimOf s (TrimSpace s) := by
  obtain ⟨pre, post, h1, h2, h3, h4, h5⟩ := trim_decomposition isSpace s.data
  refine ⟨pre, post, h1, fun ch h => (isSpace_iff_WhiteSpace ch).mp (h2 ch h),
    fun ch h => (isSpace_iff_WhiteSpace ch).mp (h3 ch h), ?_, ?_⟩
  · intro ch hch hw
    have := h4 ch hch
    rw [(isSpace_iff_WhiteSpace ch).mpr hw] at this
    exact absurd this (by decide)
  · intro ch hch hw
    have := h5 ch hch
    rw [(isSpace_iff_WhiteSpace ch).mpr hw] at this
    exact absurd this (by decide)

theorem IsTrimOf_iff (s t : String) : IsTrimOf s t ↔ t = TrimSpace s := by
  constructor
  · rintro ⟨pre, post, h1, h2, h3, h4, h5⟩
    have h := trim_unique isSpace s.data pre t.data post h1
      (fun ch h => (isSpace_iff_WhiteSpace ch).mpr (h2 ch h))
      (fun ch h => (isSpace_iff_WhiteSpace ch).mpr (h3 ch h))
      (fun ch hch => by
        have := h4 ch hch
        rw [← isSpace_iff_WhiteSpace] at this
        simpa using this)
      (fun ch hch => by
        have := h5 ch hch
        rw [← isSpace_iff_WhiteSpace] at this
        simpa using this)
    apply String.ext
    rw [TrimSpace, h]
  · intro h
    rw [h]
    exact TrimSpace_isTrimOf s

theorem IsTrimOf_empty_iff (s : String) :
    IsTrimOf s "" ↔ ∀ ch ∈ s.data, WhiteSpace ch := by
  rw [IsTrimOf_iff, eq_comm, TrimSpace_eq_empty_iff]
  exact forall_congr' fun ch => imp_congr_right fun _ => isSpace_iff_WhiteSpace ch

theorem indexInt_ofNat {α : Type} (l : List α) (n : Nat) : indexInt l (n : Int) = l[n]? := by
  simp [indexInt]

/-- C15: with the cursor row `cy` in `[0, height)`, `CurrentRowIsEmpty`
returns, and returns true if and only if every cell of row `cy` is the empty
string after trimming surrounding white space, that is, if and only if every
character of every cell of the row is a white-space character; in particular
it returns true for a row with no cell and false as soon as one cell has a
character that is not white space. The widget, grid and cursor included, is
unchanged. -/
theorem CurrentRowIsEmpty_spec (tw : TableWidget) (n : Nat) (r : Row)
    (hcy : tw.cy = (n : Int)) (hrow : tw.contents[n]? = some r) :
    ∃ b, CurrentRowIsEmpty tw = some (b, tw) ∧
      (b = true ↔ ∀ cell ∈ rowCells r, IsTrimOf cell "") ∧
      (b = true ↔ ∀ cell ∈ rowCells r, ∀ ch ∈ cell.data, WhiteSpace ch) ∧
      (b = true ↔ ∀ cell ∈ rowCells r, TrimSpace cell = "") ∧
      (rowCells r = [] → b = true) ∧
      ((∃ cell ∈ rowCells r, ∃ ch ∈ cell.data, ¬ WhiteSpace ch) → b = false) := by
  have hwhite : rowIsBlank (rowCells r) = true ↔
      ∀ cell ∈ rowCells r, ∀ ch ∈ cell.data, WhiteSpace ch := by
    rw [rowIsBlank_iff]
    exact forall_congr' fun cell => imp_congr_right fun _ => by
      rw [← IsTrimOf_empty_iff, IsTrimOf_iff, eq_comm]
  refine ⟨rowIsBlank (rowCells r), ?_, ?_, hwhite, rowIsBlank_iff _, ?_, ?_⟩
  · simp only [CurrentRowIsEmpty, hcy, indexInt_ofNat, hrow]
  · rw [hwhite]
    exact forall_congr' fun cell => imp_congr_right fun _ => (IsTrimOf_empty_iff cell).symm
  · intro h
    rw [h]
    rfl
  · rintro ⟨cell, hcell, ch, hch, hsp⟩
    cases hb : rowIsBlank (rowCells r) with
    | false => rfl
    | true => exact absurd (hwhite.mp hb cell hcell ch hch) hsp

/-- C15 at the grid `[["a "],[" ","\t"]]`: on row 1, whose cells hold white
space only, the answer is true; on row 0 it is false. -/
theorem CurrentRowIsEmpty_spec_witness :
    CurrentRowIsEmpty (mkWidget [some ["a "], some [" ", "\t"]] 0 1)
      = some (true, mkWidget [some ["a "], some [" ", "\t"]] 0 1) ∧
    CurrentRowIsEmpty (mkWidget [some ["a "], some [" ", "\t"]] 0 0)
      = some (false, mkWidget [some ["a "], some [" ", "\t"]] 0 0) := by
  constructor
  · obtain ⟨b, h1, _, h3, _⟩ :=
      CurrentRowIsEmpty_spec (mkWidget [some ["a "], some [" ", "\t"]] 0 1) 1
        (some [" ", "\t"]) (by decide) (by decide)
    have hb : b = true := h3.mpr (by decide)
    rw [hb] at h1
    exact h1
  · obtain ⟨b, h1, _, _, _, _, h6⟩ :=
      CurrentRowIsEmpty_spec (mkWidget [some ["a "], some [" ", "\t"]] 0 0) 0
        (some ["a "]) (by decide) (by decide)
    have hb : b = false := h6 ⟨"a ", by decide, 'a', by decide, by decide⟩
    rw [hb] at h1
    exact h1

theorem trimRow_eq (r : Row) : trimRow r = Option.map (List.map TrimSpace) r := by
  cases r with
  | none => rfl
  | some cells => simp [trimRow, updateEach_eq_map]

theorem trimRow_idempotent (r : Row) : trimRow (trimRow r) = trimRow r := by
  cases r with
  | none => rfl
  | some cells =>
    simp only [trimRow_eq, Option.map_some', List.map_map]
    congr 1
    apply List.map_congr_left
    intro s _
    exact TrimSpace_idempotent s

theorem TrimAll_contents (tw : TableWidget) :
    (TrimAll tw).contents = tw.contents.map trimRow := by
  simp [TrimAll, updateEach_eq_map]

/-- C16: `TrimAll` replaces every cell by its white-space-trimmed value (the
cell between its leading and trailing runs of white space, neither starting
nor ending with a white-space character) and keeps the number of rows and
the length of each row; applying it twice yields the same grid (and widget)
as applying it once. On `[[" a ","b\t","\n c d "], nil, []]` it yields
`[["a","b","c d"], nil, []]`. -/
theorem TrimAll_spec (tw : TableWidget) :
    (TrimAll tw).contents.length = tw.contents.length ∧
    (∀ (y : Nat) (r : Row), tw.contents[y]? = some r →
      ∃ r1, (TrimAll tw).contents[y]? = some r1 ∧ rowLen r1 = rowLen r ∧
        ∀ (x : Nat) (cell : String), (rowCells r)[x]? = some cell →
          ∃ t, (rowCells r1)[x]? = some t ∧ IsTrimOf cell t ∧ t = TrimSpace cell) ∧
    (TrimAll (TrimAll tw)).contents = (TrimAll tw).contents ∧
    TrimAll (TrimAll tw) = TrimAll tw ∧
    (TrimAll (mkWidget [some [" a ", "b\t", "\n c d "], none, some []] 0 0)).contents
      = [some ["a", "b", "c d"], none, some []] := by
  have hidem : (TrimAll (TrimAll tw)).contents = (TrimAll tw).contents := by
    rw [TrimAll_contents, TrimAll_contents, List.map_map]
    apply List.map_congr_left
    intro r _
    exact trimRow_idempotent r
  refine ⟨by rw [TrimAll_contents, List.length_map], ?_, hidem, ?_, by decide⟩
  · intro y r hr
    refine ⟨trimRow r, by rw [TrimAll_contents, List.getElem?_map, hr]; rfl, ?_, ?_⟩
    · cases r with
      | none => rfl
      | some cells => simp [trimRow_eq, rowLen]
    · intro x cell hx
      refine ⟨TrimSpace cell, ?_, TrimSpace_isTrimOf cell, rfl⟩
      cases r with
      | none => simp [rowCells] at hx
      | some cells =>
        simp only [rowCells] at hx
        simp [trimRow_eq, rowCells, List.getElem?_map, hx]
  · have h2 : TrimAll (TrimAll tw) =
        { TrimAll tw with contents := (TrimAll (TrimAll tw)).contents } := rfl
    rw [h2, hidem]

/-- C16 at the grid `[[" a ","b"],[]]`: cell `(0, 0)` becomes `"a"`. -/
theorem TrimAll_spec_witness :
    ∃ r1, (TrimAll (mkWidget [some [" a ", "b"], some []] 0 0)).contents[0]? = some r1 ∧
      rowLen r1 = 2 ∧ (rowCells r1)[0]? = some "a" := by
  obtain ⟨r1, h1, h2, h3⟩ :=
    (TrimAll_spec (mkWidget [some [" a ", "b"], some []] 0 0)).2.1 0 (some [" a ", "b"])
      (by decide)
  obtain ⟨t, h4, _, h6⟩ := h3 0 " a " (by decide)
  have ht : t = "a" := by
    rw [h6]
    decide
  rw [ht] at h4
  exact ⟨r1, h1, h2, h4⟩

/-! ## Get, Set and Add -/

theorem Get_eq (tw : TableWidget) (n m : Nat) (r : Row)
    (hcy : tw.cy = (n : Int)) (hcx : tw.cx = (m : Int)) (hrow : tw.contents[n]? = some r) :
    Get tw = (rowCells r)[m]? := by
  simp only [Get, hcy, hcx, indexInt_ofNat, hrow]

theorem Set_eq (tw : TableWidget) (n m : Nat) (r : Row) (field : String)
    (hcy : tw.cy = (n : Int)) (hcx : tw.cx = (m : Int)) (hrow : tw.contents[n]? = some r)
    (hm : m < rowLen r) :
    Set tw field =
      some { tw with contents := tw.contents.set n (some ((rowCells r).set m field)) } := by
  have hg : 0 ≤ (m : Int) ∧ (m : Int) < ((rowCells r).length : Int) := by
    rw [← rowLen_eq_length]; omega
  simp only [Set, hcy, hcx, indexInt_ofNat, hrow, setInt, if_pos hg, Int.toNat_ofNat]

theorem rowCells_some (l : List String) : rowCells (some l) = l := rfl

theorem set_cell_frame (g : List Row) (n m : Nat) (r : Row) (v : String)
    (hrow : g[n]? = some r) (hm : m < rowLen r) :
    cellAt (g.set n (some ((rowCells r).set m v))) n m = some v ∧
    (g.set n (some ((rowCells r).set m v))).map rowLen = g.map rowLen ∧
    ∀ y x : Nat, (y, x) ≠ (n, m) →
      cellAt (g.set n (some ((rowCells r).set m v))) y x = cellAt g y x := by
  have hn : n < g.length := (List.getElem?_eq_some.mp hrow).1
  have hm1 : m < (rowCells r).length := by rw [← rowLen_eq_length]; exact hm
  refine ⟨?_, ?_, ?_⟩
  · simp only [cellAt, List.getElem?_set_self hn, rowCells_some, List.getElem?_set_self hm1]
  · apply List.ext_getElem?
    intro i
    rw [List.getElem?_map, List.getElem?_map]
    by_cases hi : n = i
    · subst hi
      rw [List.getElem?_set_self hn, hrow]
      simp [rowLen, ← rowLen_eq_length]
    · rw [List.getElem?_set_ne hi]
  · intro y x hne
    by_cases hy : n = y
    · subst hy
      have hx : m ≠ x := fun h => hne (by rw [h])
      simp only [cellAt, List.getElem?_set_self hn, hrow, rowCells_some,
        List.getElem?_set_ne hx]
    · simp only [cellAt, List.getElem?_set_ne hy]

theorem Set_frame (tw : TableWidget) (n m : Nat) (r : Row) (field : String)
    (hcy : tw.cy = (n : Int)) (hcx : tw.cx = (m : Int)) (hrow : tw.contents[n]? = some r)
    (hm : m < rowLen r) :
    ∃ tw1, Set tw field = some tw1 ∧ Get tw1 = some field ∧
      tw1.cx = tw.cx ∧ tw1.cy = tw.cy ∧
      tw1.contents.map rowLen = tw.contents.map rowLen ∧
      ∀ y x : Nat, (y, x) ≠ (n, m) → cellAt tw1.contents y x = cellAt tw.contents y x := by
  obtain ⟨h1, h2, h3⟩ := set_cell_frame tw.contents n m r field hrow hm
  have hn : n < tw.contents.length := (List.getElem?_eq_some.mp hrow).1
  have hm1 : m < (rowCells r).length := by rw [← rowLen_eq_length]; exact hm
  have hg := Get_eq { tw with contents := tw.contents.set n (some ((rowCells r).set m field)) }
    n m (some ((rowCells r).set m field)) hcy hcx (List.getElem?_set_self hn)
  refine ⟨_, Set_eq tw n m r field hcy hcx hrow hm, ?_, rfl, rfl, h2, h3⟩
  rw [hg, rowCells_some, List.getElem?_set_self hm1]

/-- C17: with the cursor on an existing cell, after `Set(f)` the call `Get`
returns `f`, and after `Add(s)` it returns the previous value of the cell
followed by `s`; in both cases every other cell, the shape of the grid (the
number of rows and the length of each) and the cursor are unchanged. -/
theorem Set_Get_Add_spec (tw : TableWidget) (n m : Nat) (r : Row) (f s : String)
    (hcy : tw.cy = (n : Int)) (hcx : tw.cx = (m : Int)) (hrow : tw.contents[n]? = some r)
    (hm : m < rowLen r) :
    (∃ tw1, Set tw f = some tw1 ∧ Get tw1 = some f ∧
      tw1.cx = tw.cx ∧ tw1.cy = tw.cy ∧
      tw1.contents.map rowLen = tw.contents.map rowLen ∧
      ∀ y x : Nat, (y, x) ≠ (n, m) → cellAt tw1.contents y x = cellAt tw.contents y x) ∧
    (∃ old tw2, Get tw = some old ∧ Add tw s = some tw2 ∧ Get tw2 = some (old ++ s) ∧
      tw2.cx = tw.cx ∧ tw2.cy = tw.cy ∧
      tw2.contents.map rowLen = tw.contents.map rowLen ∧
      ∀ y x : Nat, (y, x) ≠ (n, m) → cellAt tw2.contents y x = cellAt tw.contents y x) := by
  refine ⟨Set_frame tw n m r f hcy hcx hrow hm, ?_⟩
  have hm1 : m < (rowCells r).length := by rw [← rowLen_eq_length]; exact hm
  have hget : Get tw = some ((rowCells r)[m]) := by
    rw [Get_eq tw n m r hcy hcx hrow, List.getElem?_eq_getElem hm1]
  obtain ⟨tw2, h1, h2⟩ := Set_frame tw n m r ((rowCells r)[m] ++ s) hcy hcx hrow hm
  exact ⟨_, tw2, hget, by simp only [Add, hget, h1], h2⟩

/-- C17 at the grid `[["a","bb"],["c","d"]]` with the cursor at `(1, 0)`. -/
theorem Set_Get_Add_spec_witness :
    (∃ tw1, Set (mkWidget [some ["a", "bb"], some ["c", "d"]] 1 0) "x" = some tw1 ∧
      Get tw1 = some "x") ∧
    (∃ tw2, Add (mkWidget [some ["a", "bb"], some ["c", "d"]] 1 0) "y" = some tw2 ∧
      Get tw2 = some ("bb" ++ "y")) :=
  have h := Set_Get_Add_spec (mkWidget [some ["a", "bb"], some ["c", "d"]] 1 0) 0 1
    (some ["a", "bb"]) "x" "y" (by decide) (by decide) (by decide) (by decide)
  ⟨⟨h.1.choose, h.1.choose_spec.1, h.1.choose_spec.2.1⟩,
    by
      obtain ⟨old, tw2, h1, h2, h3, _⟩ := h.2
      have hold : old = "bb" := by
        have h0 : Get (mkWidget [some ["a", "bb"], some ["c", "d"]] 1 0) = some "bb" := by
          decide
        rw [h0] at h1
        exact (Option.some.inj h1).symm
      rw [hold] at h3
      exact ⟨tw2, h2, h3⟩⟩

/-! ## Draw -/

theorem drawCells_some (tw : TableWidget) (cols : List Int) (y : Nat) :
    ∀ (cells : List String) (x : Nat) (xpos : Int), x + cells.length ≤ cols.length →
      ∃ ops, drawCells tw cols y cells x xpos = some ops := by
  intro cells
  induction cells with
  | nil => intro x xpos _; exact ⟨[], rfl⟩
  | cons field rest ih =>
    intro x xpos h
    simp only [List.length_cons] at h
    have hx : x < cols.length := by omega
    obtain ⟨ops, hops⟩ := ih (x + 1) (xpos + cols[x] + 2) (by omega)
    simp only [drawCells, List.getElem?_eq_getElem hx, hops]
    exact ⟨_, rfl⟩

theorem drawCells_noCursor (tw : TableWidget) (cols : List Int) (y : Nat) :
    ∀ (cells : List String) (x : Nat) (xpos : Int),
      (∀ i, i < cells.length → ¬ ((y : Int) = tw.cy ∧ ((x + i : Nat) : Int) = tw.cx)) →
      drawCells tw cols y cells x xpos = drawCells (noCursor tw) cols y cells x xpos := by
  intro cells
  induction cells with
  | nil => intro x xpos _; rfl
  | cons field rest ih =>
    intro x xpos h
    have h0 : ¬ ((y : Int) = tw.cy ∧ (x : Int) = tw.cx) := by
      simpa using h 0 (by simp)
    have h1 : ¬ ((y : Int) = (noCursor tw).cy ∧ (x : Int) = (noCursor tw).cx) := by
      simp only [noCursor]
      omega
    have ih1 : ∀ xp, drawCells tw cols y rest (x + 1) xp =
        drawCells (noCursor tw) cols y rest (x + 1) xp := by
      intro xp
      apply ih
      intro i hi
      have := h (i + 1) (by simp only [List.length_cons]; omega)
      rwa [show x + (i + 1) = x + 1 + i by omega] at this
    simp only [drawCells, h0, h1, decide_False, ih1]
    rfl

theorem drawCells_cons (tw : TableWidget) (cols : List Int) (y : Nat) (field : String)
    (rest : List String) (x : Nat) (xpos width : Int) (ops : List CanvasOp)
    (hw : cols[x]? = some width)
    (hrec : drawCells tw cols y rest (x + 1) (xpos + width + 2) = some ops) :
    drawCells tw cols y (field :: rest) x xpos = some (
      (if (y : Int) = tw.cy ∧ (x : Int) = tw.cx then
        [CanvasOp.write (toUint (xpos + (field.utf8ByteSize : Int)))
          (toUint (tw.marginTop + (y : Int) + 3)) tw.cursorColor tw.bgColor "_"]
        else []) ++
      CanvasOp.write (toUint xpos) (toUint (tw.marginTop + (y : Int) + 3))
        (if (y : Int) = tw.cy ∧ (x : Int) = tw.cx then tw.highlightColor
          else if y = 0 then tw.headerColor else tw.textColor) tw.bgColor field :: ops) := by
  simp only [drawCells, hw, hrec, decide_eq_true_eq]

theorem drawCells_cursor (tw : TableWidget) (cols : List Int) (n m : Nat)
    (hcy : tw.cy = (n : Int)) (hcx : tw.cx = (m : Int)) (field : String) (post : List String) :
    ∀ (pre : List String) (x : Nat) (xpos : Int), x + pre.length = m →
      x + (pre ++ field :: post).length ≤ cols.length →
      ∃ P Q,
        drawCells tw cols n (pre ++ field :: post) x xpos = some (P ++
          [CanvasOp.write
              (toUint (xpos + (((cols.drop x).take pre.length).map (fun w => w + 2)).sum
                + (field.utf8ByteSize : Int)))
              (toUint (tw.marginTop + (n : Int) + 3)) tw.cursorColor tw.bgColor "_",
            CanvasOp.write
              (toUint (xpos + (((cols.drop x).take pre.length).map (fun w => w + 2)).sum))
              (toUint (tw.marginTop + (n : Int) + 3)) tw.highlightColor tw.bgColor field]
          ++ Q) ∧
        drawCells (noCursor tw) cols n (pre ++ field :: post) x xpos = some (P ++
          [CanvasOp.write
              (toUint (xpos + (((cols.drop x).take pre.length).map (fun w => w + 2)).sum))
              (toUint (tw.marginTop + (n : Int) + 3))
              (if n = 0 then tw.headerColor else tw.textColor) tw.bgColor field]
          ++ Q) := by
  intro pre
  induction pre with
  | nil =>
    intro x xpos hx hlen
    simp only [List.length_nil, Nat.add_zero] at hx
    simp only [List.nil_append, List.length_cons] at hlen
    have hxl : x < cols.length := by omega
    obtain ⟨Q, hQ⟩ := drawCells_some tw cols n post (x + 1) (xpos + cols[x] + 2) (by omega)
    have hQ1 : drawCells (noCursor tw) cols n post (x + 1) (xpos + cols[x] + 2) = some Q := by
      rw [← drawCells_noCursor tw cols n post (x + 1) _ (by intro i _; omega), hQ]
    have h0 : ((n : Int) = tw.cy ∧ (x : Int) = tw.cx) := by omega
    have h1 : ¬ ((n : Int) = (noCursor tw).cy ∧ (x : Int) = (noCursor tw).cx) := by
      simp only [noCursor]
      omega
    refine ⟨[], Q, ?_, ?_⟩
    · rw [List.nil_append, drawCells_cons tw cols n field post x xpos _ Q
        (List.getElem?_eq_getElem hxl) hQ, if_pos h0, if_pos h0]
      simp
    · rw [List.nil_append, drawCells_cons (noCursor tw) cols n field post x xpos _ Q
        (List.getElem?_eq_getElem hxl) hQ1, if_neg h1, if_neg h1]
      simp [noCursor]
  | cons p pre ih =>
    intro x xpos hx hlen
    simp only [List.length_cons] at hx
    simp only [List.cons_append, List.length_cons] at hlen
    have hxl : x < cols.length := by omega
    obtain ⟨P, Q, hP, hP1⟩ := ih (x + 1) (xpos + cols[x] + 2) (by omega) (by omega)
    have h0 : ¬ ((n : Int) = tw.cy ∧ (x : Int) = tw.cx) := by omega
    have h1 : ¬ ((n : Int) = (noCursor tw).cy ∧ (x : Int) = (noCursor tw).cx) := by
      simp only [noCursor]
      omega
    have hsum : xpos + (((cols.drop x).take (p :: pre).length).map (fun w => w + 2)).sum
        = xpos + cols[x] + 2 + (((cols.drop (x + 1)).take pre.length).map (fun w => w + 2)).sum := by
      rw [List.drop_eq_getElem_cons hxl]
      simp only [List.length_cons, List.take_succ_cons, List.map_cons, List.sum_cons]
      omega
    refine ⟨CanvasOp.write (toUint xpos) (toUint (tw.marginTop + (n : Int) + 3))
      (if n = 0 then tw.headerColor else tw.textColor) tw.bgColor p :: P, Q, ?_, ?_⟩
    · rw [hsum, List.cons_append, drawCells_cons tw cols n p _ x xpos _ _
        (List.getElem?_eq_getElem hxl) hP, if_neg h0, if_neg h0]
      simp
    · rw [hsum, List.cons_append, drawCells_cons (noCursor tw) cols n p _ x xpos _ _
        (List.getElem?_eq_getElem hxl) hP1, if_neg h1, if_neg h1]
      simp [noCursor]

theorem drawRows_cons (tw : TableWidget) (cols : List Int) (c : Canvas) (row : Row)
    (rest : List Row) (y : Nat) (cellOps ops : List CanvasOp)
    (hcells : drawCells tw cols y (rowCells row) 0 tw.marginLeft = some cellOps)
    (hrec : drawRows tw cols c rest (y + 1) = some ops) :
    drawRows tw cols c (row :: rest) y = some (
      CanvasOp.write 0 (toUint (tw.marginTop + (y : Int) + 3)) tw.textColor tw.bgColor
        (blankLine c) :: cellOps ++ ops) := by
  simp only [drawRows, hcells, hrec]

theorem drawRows_some (tw : TableWidget) (cols : List Int) (c : Canvas) :
    ∀ (rows : List Row) (y : Nat), (∀ row ∈ rows, rowLen row ≤ cols.length) →
      ∃ ops, drawRows tw cols c rows y = some ops := by
  intro rows
  induction rows with
  | nil => intro y _; exact ⟨[], rfl⟩
  | cons row rest ih =>
    intro y h
    obtain ⟨cellOps, hc⟩ := drawCells_some tw cols y (rowCells row) 0 tw.marginLeft
      (by rw [← rowLen_eq_length]; have := h row (List.mem_cons_self row rest); omega)
    obtain ⟨ops, ho⟩ := ih (y + 1) (fun r hr => h r (List.mem_cons_of_mem row hr))
    exact ⟨_, drawRows_cons tw cols c row rest y cellOps ops hc ho⟩

theorem drawRows_noCursor (tw : TableWidget) (cols : List Int) (c : Canvas) :
    ∀ (rows : List Row) (y : Nat),
      (∀ i, i < rows.length → ((y + i : Nat) : Int) ≠ tw.cy) →
      drawRows tw cols c rows y = drawRows (noCursor tw) cols c rows y := by
  intro rows
  induction rows with
  | nil => intro y _; rfl
  | cons row rest ih =>
    intro y h
    have hy : (y : Int) ≠ tw.cy := by simpa using h 0 (by simp)
    have h1 : drawCells tw cols y (rowCells row) 0 tw.marginLeft =
        drawCells (noCursor tw) cols y (rowCells row) 0 tw.marginLeft :=
      drawCells_noCursor tw cols y _ 0 _ (fun i _ hc => hy hc.1)
    have h2 : drawRows tw cols c rest (y + 1) = drawRows (noCursor tw) cols c rest (y + 1) := by
      apply ih
      intro i hi
      have := h (i + 1) (by simp only [List.length_cons]; omega)
      rwa [show y + (i + 1) = y + 1 + i by omega] at this
    simp only [drawRows, h1, h2]
    rfl

theorem drawRows_cursor (tw : TableWidget) (cols : List Int) (c : Canvas) (n m : Nat)
    (hcy : tw.cy = (n : Int)) (hcx : tw.cx = (m : Int))
    (r : Row) (postR : List Row) (pre : List String) (field : String) (post : List String)
    (hr : rowCells r = pre ++ field :: post) (hpre : pre.length = m) :
    ∀ (preR : List Row) (y : Nat), y + preR.length = n →
      (∀ row ∈ preR ++ r :: postR, rowLen row ≤ cols.length) →
      ∃ P Q,
        drawRows tw cols c (preR ++ r :: postR) y = some (P ++
          [CanvasOp.write (toUint (cellXpos tw cols m + (field.utf8ByteSize : Int)))
              (toUint (tw.marginTop + (n : Int) + 3)) tw.cursorColor tw.bgColor "_",
            CanvasOp.write (toUint (cellXpos tw cols m))
              (toUint (tw.marginTop + (n : Int) + 3)) tw.highlightColor tw.bgColor field]
          ++ Q) ∧
        drawRows (noCursor tw) cols c (preR ++ r :: postR) y = some (P ++
          [CanvasOp.write (toUint (cellXpos tw cols m))
              (toUint (tw.marginTop + (n : Int) + 3))
              (if n = 0 then tw.headerColor else tw.textColor) tw.bgColor field]
          ++ Q) := by
  intro preR
  induction preR with
  | nil =>
    intro y hy hcols
    simp only [List.length_nil, Nat.add_zero] at hy
    subst hy
    have hlen : 0 + (pre ++ field :: post).length ≤ cols.length := by
      have := hcols r (by simp)
      rw [rowLen_eq_length, hr] at this
      omega
    obtain ⟨P, Q, h1, h2⟩ := drawCells_cursor tw cols y m hcy hcx field post pre 0
      tw.marginLeft (by omega) hlen
    obtain ⟨R, hR⟩ := drawRows_some tw cols c postR (y + 1)
      (fun row hrow => hcols row (by simp [hrow]))
    have hR1 : drawRows (noCursor tw) cols c postR (y + 1) = some R := by
      rw [← drawRows_noCursor tw cols c postR (y + 1) (by intro i _; omega), hR]
    rw [hpre, List.drop_zero] at h1 h2
    rw [← hr] at h1 h2
    refine ⟨CanvasOp.write 0 (toUint (tw.marginTop + (y : Int) + 3)) tw.textColor tw.bgColor
      (blankLine c) :: P, Q ++ R, ?_, ?_⟩
    · rw [List.nil_append, drawRows_cons tw cols c r postR y _ R h1 hR]
      simp [cellXpos]
    · rw [List.nil_append, drawRows_cons (noCursor tw) cols c r postR y _ R h2 hR1]
      simp [cellXpos, noCursor]
  | cons row preR ih =>
    intro y hy hcols
    simp only [List.length_cons] at hy
    obtain ⟨P, Q, h1, h2⟩ := ih (y + 1) (by omega)
      (fun r1 hr1 => hcols r1 (by rw [List.cons_append]; exact List.mem_cons_of_mem row hr1))
    obtain ⟨cellOps, hc⟩ := drawCells_some tw cols y (rowCells row) 0 tw.marginLeft
      (by rw [← rowLen_eq_length]; have := hcols row (by simp); omega)
    have hc1 : drawCells (noCursor tw) cols y (rowCells row) 0 tw.marginLeft = some cellOps := by
      rw [← drawCells_noCursor tw cols y _ 0 _ (by intro i _; omega), hc]
    refine ⟨CanvasOp.write 0 (toUint (tw.marginTop + (y : Int) + 3)) tw.textColor tw.bgColor
      (blankLine c) :: cellOps ++ P, Q, ?_, ?_⟩
    · rw [List.cons_append, drawRows_cons tw cols c row _ y cellOps _ hc h1]
      simp
    · rw [List.cons_append, drawRows_cons (noCursor tw) cols c row _ y cellOps _ hc1 h2]
      simp [noCursor]

theorem utf8Size_ascii (ch : Char) (h : ch.toNat < 128) : ch.utf8Size = 1 := by
  have h1 : ch.val ≤ UInt32.ofNatCore 0x7F (by decide) := by
    rw [UInt32.le_def]
    show ch.val.toNat ≤ 127
    have : ch.toNat = ch.val.toNat := rfl
    omega
  simp only [Char.utf8Size, h1, if_true]

theorem utf8ByteSize_go_ascii (l : List Char) (h : ∀ ch ∈ l, ch.toNat < 128) :
    String.utf8ByteSize.go l = l.length := by
  induction l with
  | nil => rfl
  | cons a t ih =>
    rw [String.utf8ByteSize.go, ih (fun ch hch => h ch (List.mem_cons_of_mem a hch)),
      utf8Size_ascii a (h a (List.mem_cons_self a t)), List.length_cons]

theorem utf8ByteSize_ascii (s : String) (h : ∀ ch ∈ s.data, ch.toNat < 128) :
    s.utf8ByteSize = s.length := by
  cases s with
  | mk l => exact utf8ByteSize_go_ascii l h

theorem drawTrailing_length_le (tw : TableWidget) (c : Canvas) (ch : Int) :
    (drawTrailing tw c ch).length ≤ 4 := by
  unfold drawTrailing
  exact le_trans (List.length_filterMap_le _ _) (by simp)

/-- C18, evaluated on the code: the last loop of `Draw` tests the grid row
`y` against the canvas height and then writes on canvas row
`marginTop + y + 3`. For a grid of one row, the top margin 10 and a canvas of
height 16 it blanks the canvas rows 14, 15, 16 and 17; the rows 16 and 17 are
not below the canvas height. -/
theorem Draw_trailing_blank_beyond_canvas :
    Draw (withColors (mkWidget [some ["a"]] 0 0)) [1] ⟨20, 16⟩ = some
      [CanvasOp.plotColor 10 11 [6] '1', CanvasOp.plotColor 11 11 [6] 'x',
        CanvasOp.plotColor 12 11 [6] '1',
        CanvasOp.write 0 13 [3] [7] (blankLine ⟨20, 16⟩),
        CanvasOp.write 11 13 [5] [7] "_",
        CanvasOp.write 10 13 [4] [7] "a",
        CanvasOp.write 0 14 [3] [7] (blankLine ⟨20, 16⟩),
        CanvasOp.write 0 15 [3] [7] (blankLine ⟨20, 16⟩),
        CanvasOp.write 0 16 [3] [7] (blankLine ⟨20, 16⟩),
        CanvasOp.write 0 17 [3] [7] (blankLine ⟨20, 16⟩)] ∧
    drawTrailing (withColors (mkWidget [some ["a"]] 0 0)) ⟨20, 16⟩ 1 =
      [CanvasOp.write 0 14 [3] [7] (blankLine ⟨20, 16⟩),
        CanvasOp.write 0 15 [3] [7] (blankLine ⟨20, 16⟩),
        CanvasOp.write 0 16 [3] [7] (blankLine ⟨20, 16⟩),
        CanvasOp.write 0 17 [3] [7] (blankLine ⟨20, 16⟩)] := by
  decide

/-- C19, evaluated on the code: for the one-cell grid `[["é"]]` with the
cursor on that cell, the text is written from column 10 and has one
character, so the column that follows its last character is 11; `Draw`
writes the caret at column 12, the start plus `len(field)`, the length of
the text in bytes. -/
theorem Draw_caret_after_multibyte_text :
    Draw (withColors (mkWidget [some ["é"]] 0 0)) [2] ⟨20, 20⟩ = some
      [CanvasOp.plotColor 10 11 [6] '1', CanvasOp.plotColor 11 11 [6] 'x',
        CanvasOp.plotColor 12 11 [6] '1',
        CanvasOp.write 0 13 [3] [7] (blankLine ⟨20, 20⟩),
        CanvasOp.write 12 13 [5] [7] "_",
        CanvasOp.write 10 13 [4] [7] "é",
        CanvasOp.write 0 14 [3] [7] (blankLine ⟨20, 20⟩),
        CanvasOp.write 0 15 [3] [7] (blankLine ⟨20, 20⟩),
        CanvasOp.write 0 16 [3] [7] (blankLine ⟨20, 20⟩),
        CanvasOp.write 0 17 [3] [7] (blankLine ⟨20, 20⟩)] ∧
    "é".length = 1 ∧ "é".utf8ByteSize = 2 ∧
    cellXpos (withColors (mkWidget [some ["é"]] 0 0)) [2] 0 = 10 := by
  decide

/-- The caret of `Draw` on a rectangular non-empty grid with a valid cursor
`(cx, cy)` and a width for every column: the caret `"_"` is written in the
cursor colour on the canvas row of grid row `cy`, at the start of the text
of the cursor cell plus `len(field)`, and right after it that text in the
highlight colour at its start, the left margin plus the sum over the
preceding columns of (column width + 2). All other writes are those of the
same widget without a cursor cell. For a text of ASCII characters
`len(field)` is the number of characters. -/
theorem Draw_caret_at_byte_length (tw : TableWidget) (cols : List Int) (c : Canvas)
    (W H n m : Nat) (_hW : 1 ≤ W) (_hH : 1 ≤ H) (hheight : tw.contents.length = H)
    (hrect : Rectangular tw.contents W)
    (hcy : tw.cy = (n : Int)) (hn : n < H) (hcx : tw.cx = (m : Int)) (hm : m < W)
    (hcols : W ≤ cols.length) :
    ∃ field before after,
      cellAt tw.contents n m = some field ∧
      Draw tw cols c = some (before ++
        [CanvasOp.write (toUint (cellXpos tw cols m + (field.utf8ByteSize : Int)))
            (toUint (tw.marginTop + (n : Int) + 3)) tw.cursorColor tw.bgColor "_",
          CanvasOp.write (toUint (cellXpos tw cols m))
            (toUint (tw.marginTop + (n : Int) + 3)) tw.highlightColor tw.bgColor field]
        ++ after) ∧
      Draw (noCursor tw) cols c = some (before ++
        [CanvasOp.write (toUint (cellXpos tw cols m))
            (toUint (tw.marginTop + (n : Int) + 3))
            (if n = 0 then tw.headerColor else tw.textColor) tw.bgColor field]
        ++ after) ∧
      ((∀ ch ∈ field.data, ch.toNat < 128) → field.utf8ByteSize = field.length) := by
  have hn1 : n < tw.contents.length := by omega
  have hsplit : tw.contents = tw.contents.take n ++ tw.contents[n] :: tw.contents.drop (n + 1) := by
    rw [← List.drop_eq_getElem_cons hn1, List.take_append_drop]
  have hrl : rowLen tw.contents[n] = W := hrect _ (List.getElem_mem hn1)
  have hm1 : m < (rowCells tw.contents[n]).length := by rw [← rowLen_eq_length, hrl]; exact hm
  have hcells : rowCells tw.contents[n] = (rowCells tw.contents[n]).take m ++
      (rowCells tw.contents[n])[m] :: (rowCells tw.contents[n]).drop (m + 1) := by
    rw [← List.drop_eq_getElem_cons hm1, List.take_append_drop]
  have hall : ∀ row ∈ tw.contents.take n ++ tw.contents[n] :: tw.contents.drop (n + 1),
      rowLen row ≤ cols.length := by
    rw [← hsplit]
    intro row hrow
    rw [hrect row hrow]
    exact hcols
  obtain ⟨P, Q, h1, h2⟩ := drawRows_cursor tw cols c n m hcy hcx tw.contents[n]
    (tw.contents.drop (n + 1)) _ _ _ hcells (by rw [List.length_take]; omega)
    (tw.contents.take n) 0 (by rw [List.length_take]; omega) hall
  rw [← hsplit] at h1 h2
  refine ⟨(rowCells tw.contents[n])[m], drawTitle tw ++ drawSize tw ++ P,
    Q ++ drawTrailing tw c (ContentsWH tw).2, ?_, ?_, ?_, utf8ByteSize_ascii _⟩
  · simp only [cellAt, List.getElem?_eq_getElem hn1, List.getElem?_eq_getElem hm1]
  · simp only [Draw, h1, List.append_assoc]
  · have h3 : drawRows (noCursor tw) cols c (noCursor tw).contents 0 = some (P ++
        [CanvasOp.write (toUint (cellXpos tw cols m))
            (toUint (tw.marginTop + (n : Int) + 3))
            (if n = 0 then tw.headerColor else tw.textColor) tw.bgColor
            (rowCells tw.contents[n])[m]] ++ Q) := h2
    simp only [Draw, h3, List.append_assoc]
    rfl

/-- The caret of `Draw` at the grid `[["a","bb"],["c","d"]]` with the cursor
at `(1, 1)` and the column widths 1 and 2. -/
theorem Draw_caret_at_byte_length_witness :
    ∃ field before after,
      cellAt (withColors (mkWidget [some ["a", "bb"], some ["c", "d"]] 1 1)).contents 1 1
        = some field ∧
      Draw (withColors (mkWidget [some ["a", "bb"], some ["c", "d"]] 1 1)) [1, 2] ⟨20, 20⟩ =
        some (before ++
          [CanvasOp.write (toUint (cellXpos
              (withColors (mkWidget [some ["a", "bb"], some ["c", "d"]] 1 1)) [1, 2] 1
              + (field.utf8ByteSize : Int)))
            (toUint (10 + ((1 : Nat) : Int) + 3)) [5] [7] "_",
          CanvasOp.write (toUint (cellXpos
              (withColors (mkWidget [some ["a", "bb"], some ["c", "d"]] 1 1)) [1, 2] 1))
            (toUint (10 + ((1 : Nat) : Int) + 3)) [4] [7] field]
          ++ after) :=
  have h := Draw_caret_at_byte_length
    (withColors (mkWidget [some ["a", "bb"], some ["c", "d"]] 1 1)) [1, 2] ⟨20, 20⟩ 2 2 1 1
    (by decide) (by decide) (by decide) (by decide) (by decide) (by decide) (by decide)
    (by decide) (by decide)
  ⟨h.choose, h.choose_spec.choose, h.choose_spec.choose_spec.choose,
    h.choose_spec.choose_spec.choose_spec.1, h.choose_spec.choose_spec.choose_spec.2.1⟩

/-! ## The height field -/

/-- C20: `NewTableWidget` sets `h` to the number of rows, and when `h` is
the number of rows and the cursor is within bounds, `h` is still the number
of rows after each of `Up`, `Down`, `Left`, `Right`, `NextOrInsert`,
`InsertRowBelow` and `DeleteCurrentRow`. -/
theorem h_tracks_height (tw : TableWidget)
    (hh : tw.h = (tw.contents.length : Int))
    (_hcx : 0 ≤ tw.cx ∧ tw.cx < (gridWidth tw.contents : Int))
    (hcy : 0 ≤ tw.cy ∧ tw.cy < (tw.contents.length : Int)) :
    (∀ (cols : List Int) (title : String) (contents : List Row)
        (c1 c2 c3 c4 c5 c6 c7 : AttributeColor) (cwidth cheight initialY : Int),
      (NewTableWidget cols title contents c1 c2 c3 c4 c5 c6 c7 cwidth cheight initialY).h
        = (contents.length : Int)) ∧
    (Up tw).h = ((Up tw).contents.length : Int) ∧
    (Down tw).h = ((Down tw).contents.length : Int) ∧
    (Left tw).h = ((Left tw).contents.length : Int) ∧
    (Right tw).h = ((Right tw).contents.length : Int) ∧
    (NextOrInsert tw).h = ((NextOrInsert tw).contents.length : Int) ∧
    (∃ tw1, InsertRowBelow tw = some tw1 ∧ tw1.h = (tw1.contents.length : Int)) ∧
    (DeleteCurrentRow tw).h = ((DeleteCurrentRow tw).contents.length : Int) := by
  refine ⟨fun _ _ _ _ _ _ _ _ _ _ _ _ _ => rfl, ?_, ?_, ?_, ?_, ?_, ?_, ?_⟩
  · simp only [Up]
    split_ifs <;> exact hh
  · simp only [Down]
    split_ifs <;> exact hh
  · simp only [Left]
    split_ifs <;> exact hh
  · simp only [Right]
    split_ifs <;> exact hh
  · simp only [NextOrInsert]
    split_ifs
    · simp only [List.length_append, List.length_singleton, hh]
      push_cast
      rfl
    · exact hh
    · exact hh
  · have hg : 0 ≤ tw.cy + 1 ∧ tw.cy + 1 ≤ (tw.contents.length : Int) := by omega
    refine ⟨_, by simp only [InsertRowBelow, if_pos hg]; rfl, ?_⟩
    simp only [List.length_append, List.length_take, List.length_singleton, List.length_drop, hh]
    omega
  · have hg : tw.cy ≥ 0 ∧ tw.cy < (tw.contents.length : Int) := by omega
    simp only [DeleteCurrentRow, if_pos hg, List.length_append, List.length_take,
      List.length_drop, hh]
    omega

/-- C20 at the widget `NewTableWidget` builds over `[["a","bb"],["c","d"]]`
with the initial row 1. -/
theorem h_tracks_height_witness :
    (DeleteCurrentRow (NewTableWidget [1, 2] "t" [some ["a", "bb"], some ["c", "d"]]
      [1] [2] [3] [4] [5] [6] [7] 80 24 1)).h = 1 ∧
    (NextOrInsert (NewTableWidget [1, 2] "t" [some ["a", "bb"], some ["c", "d"]]
      [1] [2] [3] [4] [5] [6] [7] 80 24 1)).h = 2 :=
  have h := h_tracks_height (NewTableWidget [1, 2] "t" [some ["a", "bb"], some ["c", "d"]]
    [1] [2] [3] [4] [5] [6] [7] 80 24 1) (by decide) (by decide) (by decide)
  ⟨h.2.2.2.2.2.2.2.trans (by decide), h.2.2.2.2.2.1.trans (by decide)⟩

/-! ## The indentation table of `spaces.go` -/

/-- C23, evaluated on the code: `modeMakefile` is listed under the key
`{4, false}` and under the key `{4, true}` (and `modeJSON`, `modeLua` under
`{2, true}` and `{4, true}`). Visiting the entries in the order of the source
or in the reverse order, `TabsSpacesFromMode(modeMakefile)` returns
`{4, false}` or `{4, true}` and `Spaces(modeMakefile)` false or true. -/
theorem TabsSpacesFromMode_depends_on_order :
    languageIndentation.reverse.Perm languageIndentation ∧
    TabsSpacesFromModeIn .modeMakefile languageIndentation
      = { perTab := 4, spaces := false } ∧
    TabsSpacesFromModeIn .modeMakefile languageIndentation.reverse
      = { perTab := 4, spaces := true } ∧
    SpacesIn .modeMakefile languageIndentation = false ∧
    SpacesIn .modeMakefile languageIndentation.reverse = true ∧
    TabsSpacesFromModeIn .modeJSON languageIndentation = { perTab := 2, spaces := true } ∧
    TabsSpacesFromModeIn .modeJSON languageIndentation.reverse
      = { perTab := 4, spaces := true } := by
  refine ⟨List.reverse_perm _, ?_, ?_, ?_, ?_, ?_, ?_⟩ <;> decide

/-! ## Pushing and popping a line of a file -/

theorem splitLines_ne_nil (s : List Char) : splitLines s ≠ [] := by
  induction s with
  | nil => simp [splitLines]
  | cons ch rest ih =>
    unfold splitLines
    split_ifs
    · simp
    · cases h : splitLines rest with
      | nil => exact absurd h ih
      | cons piece pieces => simp

theorem joinLines_cons (piece : List Char) (pieces : List (List Char)) (h : pieces ≠ []) :
    joinLines (piece :: pieces) = piece ++ '\n' :: joinLines pieces := by
  cases pieces with
  | nil => exact absurd rfl h
  | cons next more => rfl

theorem joinLines_splitLines (s : List Char) : joinLines (splitLines s) = s := by
  induction s with
  | nil => rfl
  | cons ch rest ih =>
    unfold splitLines
    split_ifs with hc
    · rw [joinLines_cons _ _ (splitLines_ne_nil rest), ih, hc]
      rfl
    · cases h : splitLines rest with
      | nil => exact absurd h (splitLines_ne_nil rest)
      | cons piece pieces =>
        rw [h] at ih
        cases pieces with
        | nil =>
          simp only [joinLines] at ih ⊢
          rw [ih]
        | cons next more =>
          simp only [joinLines] at ih ⊢
          rw [← ih]
          rfl

theorem splitLines_line_append (l s : List Char) (hl : '\n' ∉ l) :
    splitLines (l ++ '\n' :: s) = l :: splitLines s := by
  induction l with
  | nil => simp [splitLines]
  | cons ch rest ih =>
    have hch : ch ≠ '\n' := fun h => hl (by rw [h]; exact List.mem_cons_self _ _)
    have hrest : '\n' ∉ rest := fun h => hl (List.mem_cons_of_mem _ h)
    rw [List.cons_append, splitLines, if_neg hch, ih hrest]

theorem Join_Split (s : String) : Join (Split s) = s := by
  unfold Join Split
  rw [List.map_map]
  have h : (String.data ∘ String.mk) = (id : List Char → List Char) := rfl
  rw [h, List.map_id, joinLines_splitLines]

theorem Split_ne_nil (s : String) : Split s ≠ [] := by
  unfold Split
  intro h
  exact splitLines_ne_nil s.data (List.map_eq_nil_iff.mp h)

theorem Join_cons_Split (l c : String) :
    Join ([l] ++ Split c) = String.mk (l.data ++ '\n' :: c.data) := by
  have h : (String.data ∘ String.mk) = (id : List Char → List Char) := rfl
  unfold Join Split
  rw [List.singleton_append, List.map_cons, List.map_map, h, List.map_id,
    joinLines_cons _ _ (splitLines_ne_nil c.data), joinLines_splitLines]

theorem Split_pushed (l c : String) (hl : '\n' ∉ l.data) :
    Split (String.mk (l.data ++ '\n' :: c.data)) = l :: Split c := by
  unfold Split
  rw [splitLines_line_append l.data c.data hl, List.map_cons]

theorem popLoop_tail (rest : List String) :
    ∀ (k : Nat) (st : PopState), 1 ≤ k →
      (List.enumFrom k rest).foldl popStep st =
        { st with modifiedLines := st.modifiedLines ++ rest } := by
  induction rest with
  | nil => intro k st _; simp
  | cons a rest ih =>
    intro k st hk
    have hk0 : k ≠ 0 := by omega
    rw [List.enumFrom_cons, List.foldl_cons, ih (k + 1) _ (by omega)]
    simp [popStep, hk0]

theorem popLoop_lines (a : String) (rest : List String) :
    (a :: rest).enum.foldl popStep { foundLine := "", found := false, modifiedLines := [] } =
      { foundLine := a, found := true, modifiedLines := rest } := by
  rw [List.enum, List.enumFrom_cons, List.foldl_cons, popLoop_tail rest 1 _ (le_refl 1)]
  simp [popStep]

/-- C22: with the file modelled as a string and every read and write
succeeding, for every file content `c` and every line `l` without a newline,
`PushLineTo(l)` returns no error, and `PopLineFrom` on the file it leaves
returns `l` with no error and leaves the file content equal to `c`. -/
theorem PushLineTo_then_PopLineFrom (filename c l : String) (hl : '\n' ∉ l.data) :
    (PushLineTo c l).1 = none ∧
    PopLineFrom filename (PushLineTo c l).2 = ((l, none), c) := by
  refine ⟨rfl, ?_⟩
  have hpush : (PushLineTo c l).2 = String.mk (l.data ++ '\n' :: c.data) :=
    Join_cons_Split l c
  have hlen : 1 ≤ (Split c).length := by
    cases h : Split c with
    | nil => exact absurd h (Split_ne_nil c)
    | cons a rest => simp
  have hcond : ¬ ((l :: Split c).length = 0 ∨
      ((l :: Split c).length = 1 ∧
        (TrimSpace ((l :: Split c).getD 0 "")).utf8ByteSize = 0)) := by
    simp only [List.length_cons]
    omega
  rw [hpush]
  unfold PopLineFrom
  simp only [Split_pushed l c hl, if_neg hcond, popLoop_lines, Join_Split]
  rfl

/-- C22 at the file content `"b\nc"` and the line `"a"`. -/
theorem PushLineTo_then_PopLineFrom_witness :
    (PushLineTo "b\nc" "a").1 = none ∧
    PopLineFrom "clip.txt" (PushLineTo "b\nc" "a").2 = (("a", none), "b\nc") :=
  PushLineTo_then_PopLineFrom "clip.txt" "b\nc" "a" (by decide)

/-! ## The tables of the command menu -/

theorem mapSet_fresh {V : Type} (m : List (Int × V)) (v : V)
    (hkeys : m.map Prod.fst = (List.range m.length).map Int.ofNat) :
    mapSet m (m.length : Int) v = m ++ [((m.length : Int), v)] := by
  have hno : m.any (fun e => e.1 == (m.length : Int)) = false := by
    rw [List.any_eq_false]
    intro e he
    have h1 : e.1 ∈ m.map Prod.fst := List.mem_map_of_mem Prod.fst he
    rw [hkeys, List.mem_map] at h1
    obtain ⟨i, hi, hie⟩ := h1
    rw [List.mem_range] at hi
    have : e.1 ≠ (m.length : Int) := by
      rw [← hie]
      simp only [Int.ofNat_eq_coe, ne_eq, Nat.cast_inj]
      omega
    simpa using this
  simp [mapSet, hno]

theorem MenuOK_function_keys (sh ww : Bool) (w : Int) (t : MenuTables)
    (h : MenuOK sh ww w t) :
    t.actionFunctions.length = t.actionTitles.length ∧
    t.actionFunctions.map Prod.fst = (List.range t.actionFunctions.length).map Int.ofNat := by
  obtain ⟨h1, h2⟩ := h
  have hlen : t.actionFunctions.length = t.actionTitles.length := by
    have := congrArg List.length h2
    rwa [List.length_map] at this
  refine ⟨hlen, ?_⟩
  have := congrArg (List.map Prod.fst) h2
  rw [List.map_map] at this
  rw [hlen, ← h1, ← this]
  rfl

theorem addMenuItem_ok (sh ww : Bool) (w : Int) (t : MenuTables) (title : String) (f : Action)
    (h : MenuOK sh ww w t) (hf : titleOfAction sh ww w f = title) :
    MenuOK sh ww w (addMenuItem t title f) := by
  obtain ⟨hlen, hfk⟩ := MenuOK_function_keys sh ww w t h
  obtain ⟨h1, h2⟩ := h
  unfold MenuOK addMenuItem
  simp only
  rw [mapSet_fresh t.actionTitles title h1, mapSet_fresh t.actionFunctions f hfk]
  constructor
  · rw [List.map_append, List.length_append, List.length_singleton, List.range_succ,
      List.map_append, h1]
    rfl
  · rw [List.map_append, h2, hlen]
    simp [hf]

theorem menuTables_base_ok (sh ww : Bool) (w : Int) :
    MenuOK sh ww w
      { actionTitles :=
          [(0, titleOfAction sh ww w .saveAndQuit),
            (1, titleOfAction sh ww w .toggleWrapWhenTyping),
            (2, titleOfAction sh ww w .wordWrap),
            (3, titleOfAction sh ww w .sortStrings),
            (4, titleOfAction sh ww w .insertFile)],
        actionFunctions :=
          [(0, .saveAndQuit), (1, .toggleWrapWhenTyping), (2, .wordWrap), (3, .sortStrings),
            (4, .insertFile)] } := by
  constructor
  · rfl
  · rfl

theorem colorTheme_items_ok (sh ww : Bool) (w : Int) (t : MenuTables) (h : MenuOK sh ww w t) :
    MenuOK sh ww w
      (([ThemeColor.yellow, ThemeColor.lightGreen, ThemeColor.lightBlue].enum).foldl
        (fun t entry => addMenuItem t (colorText.getD entry.1 "" ++ " theme")
          (.colorTheme entry.2)) t) := by
  simp only [List.enum, List.enumFrom, List.foldl]
  refine addMenuItem_ok sh ww w _ _ _ ?_ rfl
  refine addMenuItem_ok sh ww w _ _ _ ?_ rfl
  exact addMenuItem_ok sh ww w _ _ _ h rfl

theorem menuTables_ok (noColor forced lightTheme sh ww : Bool) (w : Int) :
    MenuOK sh ww w (menuTables noColor forced lightTheme sh ww w) := by
  have h0 := menuTables_base_ok sh ww w
  have h1 : ∀ t, MenuOK sh ww w t → MenuOK sh ww w
      (if !noColor then
        addMenuItem t
          (if !sh then "Enable syntax highlighting" else "Disable syntax highlighting")
          .toggleSyntaxHighlight
        else t) := by
    intro t ht
    by_cases hc : (!noColor) = true
    · rw [if_pos hc]
      exact addMenuItem_ok sh ww w _ _ _ ht rfl
    · rw [if_neg hc]
      exact ht
  have h2 : ∀ t, MenuOK sh ww w t → MenuOK sh ww w
      (if forced then addMenuItem t "Unlock if locked" .unlock else t) := by
    intro t ht
    split_ifs
    · exact addMenuItem_ok sh ww w _ _ _ ht rfl
    · exact ht
  have h3 : ∀ t, MenuOK sh ww w t → MenuOK sh ww w
      (if (!lightTheme && !noColor) = true then
        ([ThemeColor.yellow, ThemeColor.lightGreen, ThemeColor.lightBlue].enum).foldl
          (fun t entry => addMenuItem t (colorText.getD entry.1 "" ++ " theme")
            (.colorTheme entry.2))
          (addMenuItem (addMenuItem t "Red/black theme" .redBlackTheme) "Default theme"
            .defaultTheme)
        else t) := by
    intro t ht
    split_ifs
    · exact colorTheme_items_ok sh ww w _
        (addMenuItem_ok sh ww w _ _ _ (addMenuItem_ok sh ww w _ _ _ ht rfl) rfl)
    · exact ht
  exact h3 _ (h2 _ (h1 _ h0))

theorem fillChoices (visit : List (Int × String)) :
    ∀ choices : List String,
      (∀ e ∈ visit, 0 ≤ e.1 ∧ e.1 < (choices.length : Int)) →
      (visit.map Prod.fst).Nodup →
      ∃ res,
        visit.foldl
          (fun acc entry =>
            match acc with
            | some choices => setInt choices entry.1 (menuChoiceText entry.1 entry.2)
            | none => none)
          (some choices) = some res ∧
        res.length = choices.length ∧
        (∀ e ∈ visit, res[e.1.toNat]? = some (menuChoiceText e.1 e.2)) ∧
        (∀ i : Nat, (∀ e ∈ visit, e.1.toNat ≠ i) → res[i]? = choices[i]?) := by
  induction visit with
  | nil => intro choices _ _; exact ⟨choices, rfl, rfl, by simp, fun _ _ => rfl⟩
  | cons e rest ih =>
    intro choices hrange hnodup
    have he := hrange e (List.mem_cons_self e rest)
    rw [List.map_cons, List.nodup_cons] at hnodup
    have hset : setInt choices e.1 (menuChoiceText e.1 e.2) =
        some (choices.set e.1.toNat (menuChoiceText e.1 e.2)) := by
      simp only [setInt, if_pos he]
    obtain ⟨res, h1, h2, h3, h4⟩ := ih (choices.set e.1.toNat (menuChoiceText e.1 e.2))
      (fun e1 he1 => by
        rw [List.length_set]
        exact hrange e1 (List.mem_cons_of_mem e he1))
      hnodup.2
    have hfresh : ∀ e1 ∈ rest, e1.1.toNat ≠ e.1.toNat := by
      intro e1 he1 heq
      have hr1 := hrange e1 (List.mem_cons_of_mem e he1)
      have : e1.1 = e.1 := by omega
      exact hnodup.1 (by rw [← this]; exact List.mem_map_of_mem Prod.fst he1)
    refine ⟨res, ?_, ?_, ?_, ?_⟩
    · rw [List.foldl_cons]
      simp only [hset]
      exact h1
    · rw [h2, List.length_set]
    · intro e1 he1
      rcases List.mem_cons.mp he1 with heq | hin
      · rw [heq, h4 e.1.toNat hfresh, List.getElem?_set_self (by omega)]
      · exact h3 e1 hin
    · intro i hi
      rw [h4 i (fun e1 he1 => hi e1 (List.mem_cons_of_mem e he1)),
        List.getElem?_set_ne (hi e (List.mem_cons_self e rest))]

theorem lookup_of_key {V : Type} (m : List (Int × V)) (k : Int) (hk : k ∈ m.map Prod.fst) :
    ∃ v, m.lookup k = some v ∧ (k, v) ∈ m := by
  induction m with
  | nil => simp at hk
  | cons e rest ih =>
    obtain ⟨k1, v1⟩ := e
    by_cases h : k = k1
    · exact ⟨v1, by simp [List.lookup, h], by rw [h]; exact List.mem_cons_self _ _⟩
    · have hk1 : k ∈ rest.map Prod.fst := by
        rw [List.map_cons, List.mem_cons] at hk
        rcases hk with hk | hk
        · exact absurd hk h
        · exact hk
      obtain ⟨v, hv, hmem⟩ := ih hk1
      refine ⟨v, ?_, List.mem_cons_of_mem _ hmem⟩
      have hne : (k == k1) = false := by simpa using h
      simp only [List.lookup, hne]
      exact hv

theorem mem_range_keys (n : Nat) (k : Int) (h0 : 0 ≤ k) (hn : k < (n : Int)) :
    k ∈ (List.range n).map Int.ofNat := by
  rw [List.mem_map]
  exact ⟨k.toNat, by rw [List.mem_range]; omega, by simp only [Int.ofNat_eq_coe]; omega⟩

theorem menuTables_agree (noColor forced lightTheme syntaxHighlight wrapWhenTyping : Bool)
    (editorWrapWidth : Int) :
    let t := menuTables noColor forced lightTheme syntaxHighlight wrapWhenTyping editorWrapWidth
    let n := t.actionTitles.length
    t.actionTitles.map Prod.fst = (List.range n).map Int.ofNat ∧
    t.actionFunctions.map Prod.fst = (List.range n).map Int.ofNat ∧
    t.actionFunctions.map
      (fun e => (e.1, titleOfAction syntaxHighlight wrapWhenTyping editorWrapWidth e.2))
        = t.actionTitles ∧
    (∀ visit : List (Int × String), visit.Perm t.actionTitles →
      ∃ choices, buildMenuChoices n visit = some choices ∧ choices.length = n ∧
        ∀ i : Nat, i < n → ∃ d, ((i : Int), d) ∈ t.actionTitles ∧
          choices[i]? = some (menuChoiceText (i : Int) d)) ∧
    (∀ selected : Int, 0 ≤ selected → selected < (n : Int) →
      ∃ f, selectedAction t selected = some f ∧
        (selected, titleOfAction syntaxHighlight wrapWhenTyping editorWrapWidth f)
          ∈ t.actionTitles) := by
  intro t n
  have hok : MenuOK syntaxHighlight wrapWhenTyping editorWrapWidth t :=
    menuTables_ok noColor forced lightTheme syntaxHighlight wrapWhenTyping editorWrapWidth
  obtain ⟨hlen, hfk⟩ := MenuOK_function_keys _ _ _ t hok
  obtain ⟨h1, h2⟩ := hok
  rw [hlen] at hfk
  refine ⟨h1, hfk, h2, ?_, ?_⟩
  · intro visit hperm
    have hkeys : (visit.map Prod.fst).Perm ((List.range n).map Int.ofNat) := by
      rw [← h1]
      exact hperm.map Prod.fst
    have hnodup : (visit.map Prod.fst).Nodup := by
      rw [hkeys.nodup_iff]
      exact (List.nodup_range n).map (fun a b hab => by simpa using hab)
    have hrange : ∀ e ∈ visit, 0 ≤ e.1 ∧ e.1 < ((blankCells (n : Int)).length : Int) := by
      intro e he
      have hk : e.1 ∈ (List.range n).map Int.ofNat :=
        hkeys.subset (List.mem_map_of_mem Prod.fst he)
      rw [List.mem_map] at hk
      obtain ⟨i, hi, hie⟩ := hk
      rw [List.mem_range] at hi
      simp only [blankCells, Int.toNat_ofNat, List.length_replicate]
      rw [← hie]
      simp only [Int.ofNat_eq_coe]
      omega
    obtain ⟨res, hres, hl, hfill, _⟩ := fillChoices visit (blankCells (n : Int)) hrange hnodup
    have hln : res.length = n := by
      rw [hl]
      simp [blankCells]
    refine ⟨res, hres, hln, ?_⟩
    intro i hi
    obtain ⟨d, _, hmem⟩ := lookup_of_key t.actionTitles (i : Int)
      (by rw [h1]; exact mem_range_keys n _ (by omega) (by omega))
    refine ⟨d, hmem, ?_⟩
    have := hfill ((i : Int), d) (hperm.symm.subset hmem)
    simpa using this
  · intro selected h0 hn
    obtain ⟨f, hf, hmem⟩ := lookup_of_key t.actionFunctions selected
      (by rw [hfk]; exact mem_range_keys n selected h0 hn)
    refine ⟨f, hf, ?_⟩
    rw [← h2]
    exact List.mem_map_of_mem
      (fun e => (e.1, titleOfAction syntaxHighlight wrapWhenTyping editorWrapWidth e.2)) hmem

/-- C21: for every value of `noColor` (NO_COLOR set or unset), `forced` and
`lightTheme` (and of the fields that only change a title), the tables built
by `CommandMenu` agree: `actionTitles` and `actionFunctions` have the same
keys, exactly `0 .. n-1` for `n` entries, and key by key the function is the
one that belongs to the title. Hence, in whatever order the map is visited,
every `menuChoices[i]` is filled with the text of title `i`, and
`actionFunctions[selected]` is defined for every `0 ≤ selected < n` and is
the function of the title stored under `selected`. -/
theorem CommandMenu_tables_agree
    (noColor forced lightTheme syntaxHighlight wrapWhenTyping : Bool) (editorWrapWidth : Int) :
    (menuTables noColor forced lightTheme syntaxHighlight wrapWhenTyping
        editorWrapWidth).actionTitles.map Prod.fst =
      (List.range (menuTables noColor forced lightTheme syntaxHighlight wrapWhenTyping
        editorWrapWidth).actionTitles.length).map Int.ofNat ∧
    (menuTables noColor forced lightTheme syntaxHighlight wrapWhenTyping
        editorWrapWidth).actionFunctions.map Prod.fst =
      (List.range (menuTables noColor forced lightTheme syntaxHighlight wrapWhenTyping
        editorWrapWidth).actionTitles.length).map Int.ofNat ∧
    (menuTables noColor forced lightTheme syntaxHighlight wrapWhenTyping
        editorWrapWidth).actionFunctions.map
      (fun e => (e.1, titleOfAction syntaxHighlight wrapWhenTyping editorWrapWidth e.2)) =
      (menuTables noColor forced lightTheme syntaxHighlight wrapWhenTyping
        editorWrapWidth).actionTitles ∧
    (∀ visit : List (Int × String),
      visit.Perm (menuTables noColor forced lightTheme syntaxHighlight wrapWhenTyping
        editorWrapWidth).actionTitles →
      ∃ choices,
        buildMenuChoices (menuTables noColor forced lightTheme syntaxHighlight wrapWhenTyping
          editorWrapWidth).actionTitles.length visit = some choices ∧
        choices.length = (menuTables noColor forced lightTheme syntaxHighlight wrapWhenTyping
          editorWrapWidth).actionTitles.length ∧
        ∀ i : Nat, i < (menuTables noColor forced lightTheme syntaxHighlight wrapWhenTyping
            editorWrapWidth).actionTitles.length →
          ∃ d, ((i : Int), d) ∈ (menuTables noColor forced lightTheme syntaxHighlight
              wrapWhenTyping editorWrapWidth).actionTitles ∧
            choices[i]? = some (menuChoiceText (i : Int) d)) ∧
    (∀ selected : Int, 0 ≤ selected →
      selected < ((menuTables noColor forced lightTheme syntaxHighlight wrapWhenTyping
        editorWrapWidth).actionTitles.length : Int) →
      ∃ f, selectedAction (menuTables noColor forced lightTheme syntaxHighlight wrapWhenTyping
          editorWrapWidth) selected = some f ∧
        (selected, titleOfAction syntaxHighlight wrapWhenTyping editorWrapWidth f)
          ∈ (menuTables noColor forced lightTheme syntaxHighlight wrapWhenTyping
            editorWrapWidth).actionTitles) :=
  menuTables_agree noColor forced lightTheme syntaxHighlight wrapWhenTyping editorWrapWidth

end Orbiton
